import Mathlib

/-!
Verification of the coze-studio workflow engine core against its
natural-language specification.

The definitions below are a shallow embedding of the Go sources:
  backend/domain/workflow/internal/schema/workflow_schema.go
  backend/domain/workflow/entity/vo/canvas.go
  backend/domain/workflow/service/service_impl.go
Go maps become association lists with explicit insert/lookup, Go panics
become a distinguished error constructor, `reflect.DeepEqual` on opaque
payloads becomes decidable equality on stand-in value types, and fallible
Go functions return `Except`.  Definitions whose Go source is not part of
the repository snapshot (helpers living in other files) are marked
`Modelled from the spec:` and follow the specification text.
-/

namespace Coze

abbrev NodeKey := String

/-- Association-list lookup for Go maps keyed by strings. -/
def lookupAssoc {α : Type} : List (String × α) → String → Option α
  | [], _ => none
  | (k', v) :: rest, k => if k' = k then some v else lookupAssoc rest k

/-- Association-list insert-or-replace, modelling Go `m[k] = v`. -/
def updateAssoc {α : Type} : List (String × α) → String → α → List (String × α)
  | [], k, v => [(k, v)]
  | (k', v') :: rest, k, v =>
    if k' = k then (k, v) :: rest else (k', v') :: updateAssoc rest k v

/-- Keys of an association list. -/
def keysOfAssoc {α : Type} (m : List (String × α)) : List String := m.map Prod.fst

/-- Increment for Go `m[k]++` on a counter map (missing key counts as 0). -/
def bumpAssoc (m : List (String × Nat)) (k : String) : List (String × Nat) :=
  match lookupAssoc m k with
  | some v => updateAssoc m k (v + 1)
  | none => updateAssoc m k 1

/-! ### Character-level string primitives

The Go code works on ASCII identifiers and ports, where Go's byte-wise
string operations agree with character-wise ones.  These char-list-based
versions of the needed operations keep every definition computable by the
kernel. -/

/-- strings.HasPrefix / String.startsWith. -/
def strStartsWith (s p : String) : Bool := p.data.isPrefixOf s.data

/-- Dropping the first n characters (used for strings.TrimPrefix with a
known prefix length). -/
def strDrop (s : String) (n : Nat) : String := ⟨s.data.drop n⟩

/-- strings.Split on a single separator character. -/
def splitOnChar (c : Char) : List Char → List (List Char)
  | [] => [[]]
  | x :: xs =>
    if x = c then [] :: splitOnChar c xs
    else
      match splitOnChar c xs with
      | g :: gs => (x :: g) :: gs
      | [] => [[x]]

/-- Decimal digits of a natural number (fuel-bounded division loop; the
fuel n + 1 always suffices since n / 10 < n for n ≥ 10). -/
def natDigitsAux : Nat → Nat → List Char
  | 0, _ => []
  | fuel + 1, n =>
    if n < 10 then [Nat.digitChar n]
    else natDigitsAux fuel (n / 10) ++ [Nat.digitChar (n % 10)]

/-- Decimal rendering of a natural number (fmt %d). -/
def natDecimalStr (n : Nat) : String := ⟨natDigitsAux (n + 1) n⟩

/-- Decimal rendering of an integer (fmt %d, strconv.FormatInt). -/
def intDecimalStr (i : Int) : String :=
  if i < 0 then "-" ++ natDecimalStr i.natAbs else natDecimalStr i.natAbs

/-! ## Schema model (workflow_schema.go) -/

/-- Connection between two node keys, with an optional source port. -/
structure Connection where
  FromNode : NodeKey
  ToNode : NodeKey
  FromPort : Option String
deriving DecidableEq, Repr

/-- Connection.ID, workflow_schema.go lines 113-118. -/
def Connection.ID (c : Connection) : String :=
  match c.FromPort with
  | some p => c.FromNode ++ ":" ++ c.ToNode ++ ":" ++ p
  | none => c.FromNode ++ ":" ++ c.ToNode

/-- Stream configuration flags of a node schema. -/
structure StreamConfig where
  CanGeneratesStream : Bool
  RequireStreamingInput : Bool
deriving DecidableEq, Repr

/-- Reference part of an input/output source: which node and path the field
comes from.  Modelled from the spec: `NodeSchema` has typed `input_sources`
(field path + origin); the defining Go file is not in the snapshot, only its
uses (`source.Source.Ref.FromNodeKey` in workflow_schema.go). -/
structure FieldRef where
  FromNodeKey : NodeKey
  FromPath : List String
deriving DecidableEq, Repr

/-- Source of a field: either a reference to another node's output or a
literal value (opaque stand-in). -/
structure FieldSource where
  Ref : Option FieldRef
  Val : Option String
deriving DecidableEq, Repr

/-- One input/output source entry: target path plus its source. -/
structure FieldInfo where
  Path : List String
  Source : FieldSource
deriving DecidableEq, Repr

/-- NodeSchema.  Modelled from the spec: `key`, `type`, `name`, typed
`input_sources[]`/`output_sources[]`, `input_types`/`output_types`, `configs`
(type-specific value), `exception_configs`, `stream_configs`, and for
sub-workflow nodes `sub_workflow_basic` plus an embedded sub-workflow schema.
The polymorphic payloads (`Configs`, the type maps, `SubWorkflowBasic`, the
embedded schema) are opaque stand-in values compared with decidable equality,
which models `reflect.DeepEqual` on them. -/
structure NodeSchema where
  Key : NodeKey
  NType : String
  Name : String
  Configs : String
  InputTypes : String
  InputSources : List FieldInfo
  OutputTypes : String
  OutputSources : List FieldInfo
  ExceptionConfigs : Option String
  SubWorkflowBasic : Option String
  StreamConfigs : Option StreamConfig
  SubWorkflowSchemaRepr : Option String
deriving DecidableEq, Repr

/-- Branch schema: outgoing port set of a branching node.
Modelled from the spec: step 7 of compilation builds a `BranchSchema` per
branching node from its outgoing port set (BuildBranches is not in the
snapshot). -/
structure BranchSchema where
  Ports : List String
deriving DecidableEq, Repr

/-- WorkflowSchema, workflow_schema.go lines 48-97.  The Go maps
`Hierarchy` and `Branches` become association lists.  The runtime-cached
fields (`nodeMap`, `requireStreaming`, ...) are recomputed by functions
below instead of being stored. -/
structure WorkflowSchema where
  Nodes : List NodeSchema
  Connections : List Connection
  Hierarchy : List (NodeKey × NodeKey)
  Branches : List (NodeKey × BranchSchema)
  GeneratedNodes : List NodeKey
deriving DecidableEq, Repr

/-! ### WorkflowSchema.IsEqual (workflow_schema.go lines 267-323) -/

/-- Build the Go set-map `map[string]bool` keyed by connection IDs:
duplicate IDs collapse, order of first occurrence is kept. -/
def buildKeySet (cs : List Connection) : List String :=
  cs.foldl (fun ks c => if ks.contains c.ID then ks else ks ++ [c.ID]) []

/-- maps.Equal on two `map[string]bool` whose values are all true: equal
sizes and every key of the first present in the second. -/
def mapsEqualKeys (m1 m2 : List String) : Bool :=
  m1.length == m2.length && m1.all (fun k => m2.contains k)

/-- Build the Go map `map[vo.NodeKey]*NodeSchema` from a node list; a later
node with the same key overwrites an earlier one. -/
def buildNodeMap (ns : List NodeSchema) : List (NodeKey × NodeSchema) :=
  ns.foldl (fun m n => updateAssoc m n.Key n) []

/-- The comparison function passed to maps.EqualFunc inside IsEqual
(workflow_schema.go lines 289-317): field-by-field equality on the eight
compared fields, everything else ignored. -/
def nodeFieldsEq (node other : NodeSchema) : Bool :=
  if node.Name ≠ other.Name then false
  else if node.Configs ≠ other.Configs then false
  else if node.InputTypes ≠ other.InputTypes then false
  else if node.InputSources ≠ other.InputSources then false
  else if node.OutputTypes ≠ other.OutputTypes then false
  else if node.OutputSources ≠ other.OutputSources then false
  else if node.ExceptionConfigs ≠ other.ExceptionConfigs then false
  else if node.SubWorkflowBasic ≠ other.SubWorkflowBasic then false
  else true

/-- maps.EqualFunc on two node maps: equal sizes and every entry of the
first matched by an entry of the second under `nodeFieldsEq`. -/
def mapsEqualFunc (m1 m2 : List (NodeKey × NodeSchema)) : Bool :=
  m1.length == m2.length &&
    m1.all (fun kv =>
      match lookupAssoc m2 kv.1 with
      | some v2 => nodeFieldsEq kv.2 v2
      | none => false)

/-- WorkflowSchema.IsEqual, workflow_schema.go lines 267-323. -/
def WorkflowSchema.IsEqual (w other : WorkflowSchema) : Bool :=
  let otherConnectionsMap := buildKeySet other.Connections
  let connectionsMap := buildKeySet w.Connections
  if ¬ mapsEqualKeys otherConnectionsMap connectionsMap then false
  else mapsEqualFunc (buildNodeMap other.Nodes) (buildNodeMap w.Nodes)

/-! ### Spec-side execution equivalence (spec §4.1 "Schema equality") -/

/-- Node-by-node agreement on the eight fields named by the spec. -/
def SpecNodesAgree (n1 n2 : NodeSchema) : Prop :=
  n1.Name = n2.Name ∧ n1.Configs = n2.Configs ∧
  n1.InputTypes = n2.InputTypes ∧ n1.InputSources = n2.InputSources ∧
  n1.OutputTypes = n2.OutputTypes ∧ n1.OutputSources = n2.OutputSources ∧
  n1.ExceptionConfigs = n2.ExceptionConfigs ∧
  n1.SubWorkflowBasic = n2.SubWorkflowBasic

/-- Execution equivalence as the spec states it: connection-id sets are
equal and the node maps keyed by node key agree node-by-node on `name`,
`configs`, `input_types`/`input_sources`, `output_types`/`output_sources`,
`exception_configs` and `sub_workflow_basic`.  No other field occurs. -/
def SpecExecutionEquivalent (a b : WorkflowSchema) : Prop :=
  (∀ s : String, s ∈ a.Connections.map Connection.ID ↔
      s ∈ b.Connections.map Connection.ID) ∧
  (∀ k : NodeKey,
    match lookupAssoc (buildNodeMap a.Nodes) k,
          lookupAssoc (buildNodeMap b.Nodes) k with
    | some n1, some n2 => SpecNodesAgree n1 n2
    | none, none => True
    | _, _ => False)

/-! ### Streaming requirement (workflow_schema.go lines 329-385) -/

/-- Keys of nodes whose stream config declares `CanGeneratesStream`
(the producer map of doRequireStreaming). -/
def producerKeys (w : WorkflowSchema) : List NodeKey :=
  (w.Nodes.filter (fun n =>
    match n.StreamConfigs with
    | some scv => scv.CanGeneratesStream
    | none => false)).map NodeSchema.Key

/-- Consumer-map membership test: some node with this key declares
`RequireStreamingInput`. -/
def isConsumerKey (w : WorkflowSchema) (k : NodeKey) : Bool :=
  w.Nodes.any (fun n =>
    n.Key == k &&
      match n.StreamConfigs with
      | some scv => scv.RequireStreamingInput
      | none => false)

/-- Whether the consumer map is non-empty. -/
def hasConsumer (w : WorkflowSchema) : Bool :=
  w.Nodes.any (fun n =>
    match n.StreamConfigs with
    | some scv => scv.RequireStreamingInput
    | none => false)

/-- The data-flow adjacency built from InputSources: one edge from the
referenced node to the node holding the input source, for every source
whose Ref names a non-empty node key (workflow_schema.go lines 348-359). -/
def dataFlowEdges (w : WorkflowSchema) : List (NodeKey × NodeKey) :=
  w.Nodes.flatMap (fun n =>
    n.InputSources.filterMap (fun s =>
      match s.Source.Ref with
      | some r => if r.FromNodeKey.length > 0 then some (r.FromNodeKey, n.Key) else none
      | none => none))

/-- Neighbour list of a key in the adjacency (the Go set collapses
duplicates; here the visited check below does). -/
def neighborsOf (edges : List (NodeKey × NodeKey)) (k : NodeKey) : List NodeKey :=
  (edges.filter (fun e => e.1 == k)).map Prod.snd

/-- The Go BFS inner loop marking neighbours visited as they are enqueued:
`for neighbor := range adj[curr] { if !visited[neighbor] { ... } }`. -/
def enqueueNew (nbrs : List NodeKey) (q visited : List NodeKey) :
    List NodeKey × List NodeKey :=
  nbrs.foldl
    (fun acc nb => if nb ∈ acc.2 then acc else (acc.1 ++ [nb], acc.2 ++ [nb]))
    (q, visited)

/-- The BFS of doRequireStreaming (workflow_schema.go lines 362-382), with
an explicit fuel bounding the number of loop iterations; the caller passes
enough fuel for the loop to run to completion. -/
def bfsReach (consumers : NodeKey → Bool) (edges : List (NodeKey × NodeKey)) :
    Nat → List NodeKey → List NodeKey → Bool
  | 0, _, _ => false
  | _ + 1, [], _ => false
  | fuel + 1, curr :: rest, visited =>
    if consumers curr then true
    else
      let qv := enqueueNew (neighborsOf edges curr) rest visited
      bfsReach consumers edges fuel qv.1 qv.2

/-- WorkflowSchema.doRequireStreaming, workflow_schema.go lines 329-385:
true iff some producer reaches some consumer through the data-flow graph. -/
def WorkflowSchema.doRequireStreaming (w : WorkflowSchema) : Bool :=
  if producerKeys w = [] ∨ hasConsumer w = false then false
  else
    (producerKeys w).any (fun p =>
      bfsReach (isConsumerKey w) (dataFlowEdges w) (w.Nodes.length + 1) [p] [p])

/-- WorkflowSchema.RequireStreaming: Init caches doRequireStreaming into
the private field returned by this getter (workflow_schema.go lines
159, 191-193); the cache is recomputed here. -/
def WorkflowSchema.RequireStreaming (w : WorkflowSchema) : Bool :=
  w.doRequireStreaming

/-- Spec-side reachability in a directed edge list: reflexive-transitive
closure of edge membership. -/
inductive Reach (E : List (NodeKey × NodeKey)) : NodeKey → NodeKey → Prop where
  | refl (a : NodeKey) : Reach E a a
  | step {a b c : NodeKey} (h : (a, b) ∈ E) (h2 : Reach E b c) : Reach E a c

/-- Spec-side producer: a node whose stream config declares it can
generate a stream. -/
def IsProducer (w : WorkflowSchema) (k : NodeKey) : Prop :=
  ∃ n ∈ w.Nodes, n.Key = k ∧
    ∃ scv, n.StreamConfigs = some scv ∧ scv.CanGeneratesStream = true

/-- Spec-side consumer: a node whose stream config requires streaming
input. -/
def IsConsumer (w : WorkflowSchema) (k : NodeKey) : Prop :=
  ∃ n ∈ w.Nodes, n.Key = k ∧
    ∃ scv, n.StreamConfigs = some scv ∧ scv.RequireStreamingInput = true

/-- Reachability whose intermediate and final nodes avoid a given set (the
start node is exempt); the invariant shape of the BFS visited set. -/
inductive ReachAvoid (E : List (NodeKey × NodeKey)) (V : List NodeKey) :
    NodeKey → NodeKey → Prop where
  | refl (a : NodeKey) : ReachAvoid E V a a
  | step {a b c : NodeKey} (h : (a, b) ∈ E) (hb : b ∉ V)
      (h2 : ReachAvoid E V b c) : ReachAvoid E V a c

/-! ## Canvas model (entity/vo/canvas.go) -/

/-- Canvas edge, canvas.go lines 111-116. -/
structure Edge where
  SourceNodeID : String
  TargetNodeID : String
  SourcePortID : String
  TargetPortID : String
deriving DecidableEq, Repr

/-- Variable types, canvas.go lines 576-583. -/
inductive VariableType where
  | string
  | integer
  | float
  | boolean
  | object
  | list
deriving DecidableEq, Repr

mutual
/-- Canvas Variable (canvas.go lines 511-537), restricted to the fields the
verified operations read: Name, Type, Required, Description, DefaultValue
and the untyped Schema payload. -/
inductive Variable : Type where
  | mk (Name : String) (VType : VariableType) (Required : Bool)
    (Description : String) (DefaultValue : Option String) (Schema : VarSchema)

/-- The untyped `Schema any` field of Variable: nil, a single element
variable (for lists) or a field list (for objects). -/
inductive VarSchema : Type where
  | vnone
  | velem (v : Variable)
  | vfields (vs : List Variable)
end

def Variable.Name : Variable → String
  | .mk n _ _ _ _ _ => n

def Variable.VType : Variable → VariableType
  | .mk _ t _ _ _ _ => t

def Variable.Required : Variable → Bool
  | .mk _ _ r _ _ _ => r

def Variable.DefaultValue : Variable → Option String
  | .mk _ _ _ _ d _ => d

def Variable.Schema : Variable → VarSchema
  | .mk _ _ _ _ _ s => s

/-- BlockInputReference, canvas.go lines 552-557. -/
structure BlockInputReference where
  BlockID : String
  RefName : String
  Path : List String
  Source : String

/-- The untyped `Content any` of BlockInputValue: either a literal string
or a reference. -/
inductive BIContent : Type where
  | litStr (s : String)
  | ref (r : BlockInputReference)

/-- BlockInputValue, canvas.go lines 546-550. -/
structure BlockInputValue where
  VType : String
  Content : Option BIContent

/-- The untyped `Schema any` of BlockInput: nil or a Variable payload. -/
inductive BISchema : Type where
  | bnone
  | bvar (v : Variable)

/-- BlockInput, canvas.go lines 539-544. -/
structure BlockInput where
  BType : VariableType
  Schema : BISchema
  Value : Option BlockInputValue

/-- Param, canvas.go lines 491-508 (the Left/Right/Variables variants are
not read by the verified operations). -/
structure Param where
  PName : String
  Input : Option BlockInput

/-- NodeBatch, canvas.go lines 321-326. -/
structure NodeBatch where
  BatchEnable : Bool
  BatchSize : Int
  ConcurrentSize : Int
  InputLists : List Param

/-- The embedded Batch config a Batch parent node carries
(BatchSize / ConcurrentSize block inputs). -/
structure BatchCfg where
  BatchSize : Option BlockInput
  ConcurrentSize : Option BlockInput

/-- Inputs, canvas.go lines 139-178, restricted to the fields read or
copied by the verified operations; the remaining node-type-specific
configs are opaque stand-in payloads. -/
structure Inputs where
  InputParameters : List Param
  NodeBatchInfo : Option NodeBatch
  Batch : Option BatchCfg
  LLMParam : Option String
  LLMCfg : Option String
  SettingOnError : Option String
  SubWorkflowCfg : Option String
  PluginAPIParam : Option String

/-- An entry of `Data.Outputs []any`: either a Variable or a Param. -/
inductive OutputAny : Type where
  | ofVar (v : Variable)
  | ofParam (p : Param)

/-- NodeMetaFE, canvas.go lines 101-107 (only Title is read). -/
structure NodeMetaFE where
  Title : String
deriving DecidableEq, Repr

/-- Data, canvas.go lines 120-135. -/
structure Data where
  Meta : Option NodeMetaFE
  Outputs : List OutputAny
  Inputs : Option Inputs

/-- Canvas node, canvas.go lines 58-89.  Recursive through `Blocks`; the
`parent` back-pointer set by SetParent is not stored, the functions below
pass the parent explicitly. -/
inductive Node : Type where
  | mk (ID : String) (NType : String) (NData : Option Data)
    (Blocks : List Node) (Edges : List Edge)

def Node.ID : Node → String
  | .mk i _ _ _ _ => i

def Node.NType : Node → String
  | .mk _ t _ _ _ => t

def Node.NData : Node → Option Data
  | .mk _ _ d _ _ => d

def Node.Blocks : Node → List Node
  | .mk _ _ _ b _ => b

def Node.Edges : Node → List Edge
  | .mk _ _ _ _ e => e

/-- Replace a node's blocks and edges (the in-place mutation done by
PruneIsolatedNodes). -/
def Node.withBlocksEdges : Node → List Node → List Edge → Node
  | .mk i t d _ _, bs, es => .mk i t d bs es

/-- Canvas, canvas.go lines 44-53. -/
structure Canvas where
  Nodes : List Node
  Edges : List Edge

/-! ### Node type identifiers and well-known keys -/

/-- entity.EntryNodeKey: the Entry node's fixed ID (canvas.go line 61 and
the default canvas templates). -/
def EntryNodeKey : String := "100001"

/-- entity.ExitNodeKey: the Exit node's fixed ID (canvas.go line 61). -/
def ExitNodeKey : String := "900001"

/-- The eino compose terminal sentinel einoCompose.END.
Modelled from the spec: the END sentinel marks the terminal of the current
scope; the eino library defining its string value is not in the snapshot. -/
def END : String := "end"

/-- entity.NodeTypeEntry.IDStr(): "1" per the default canvas templates. -/
def NodeTypeEntryIDStr : String := "1"

/-- entity.NodeTypeExit.IDStr(): "2" per the default canvas templates. -/
def NodeTypeExitIDStr : String := "2"

/-- Modelled from the spec: the remaining members of the closed node-type
set (spec §4.2); their numeric ID strings live in an entity file absent
from the snapshot, so representative distinct values are fixed here.  Only
distinctness and the Entry/Exit values above are relied upon. -/
def NodeTypeLLMIDStr : String := "3"

def NodeTypeSelectorIDStr : String := "8"

def NodeTypeSubWorkflowIDStr : String := "9"

def NodeTypeBreakIDStr : String := "19"

def NodeTypeContinueIDStr : String := "20"

def NodeTypeLoopIDStr : String := "21"

def NodeTypeBatchIDStr : String := "28"

def NodeTypeCommentIDStr : String := "999"

/-- Modelled from the spec: the node-adaptor registry holds an adaptor for
every member of the closed node-type set except Comment (spec §4.2); the
registry contents live outside the snapshot.  This list stands for the
registered type IDs the verified operations can meet. -/
def adaptorTypeIDs : List String :=
  [NodeTypeEntryIDStr, NodeTypeExitIDStr, NodeTypeLLMIDStr,
   NodeTypeSelectorIDStr, NodeTypeBreakIDStr, NodeTypeContinueIDStr,
   NodeTypeLoopIDStr, NodeTypeBatchIDStr]

/-- nodes.GetNodeAdaptor succeeds exactly for registered types. -/
def hasNodeAdaptor (t : String) : Bool := adaptorTypeIDs.contains t

/-- vo.GenerateNodeIDForBatchMode, canvas.go lines 713-715. -/
def GenerateNodeIDForBatchMode (key : String) : String := key ++ "_inner"

/-- Compilation errors of CanvasToWorkflowSchema: a recovered panic wrapped
by the deferred handler (canvas.go lines 1126-1130), or an ordinary
conversion error. -/
inductive CompileErr : Type where
  | panicWrapped (msg : String)
  | conv (msg : String)
deriving DecidableEq, Repr

/-! ### Batch-mode expansion (canvas.go lines 1763-1922) -/

/-- Modelled from the spec: vo.ParseVariable converts an untyped canvas
output entry into a Variable (the function's file is outside the
snapshot).  A Variable payload is returned as is; a Param converts from
its name and block-input type and schema. -/
def ParseVariable : OutputAny → Except String Variable
  | .ofVar v => .ok v
  | .ofParam p =>
    match p.Input with
    | some bi =>
      .ok (.mk p.PName bi.BType false "" none
        (match bi.Schema with
         | .bnone => .vnone
         | .bvar v => .velem v))
    | none => .error "param has no input"

/-- Modelled from the spec: vo.ParseVariable applied to the untyped Schema
payload of a list variable; only a single-variable payload parses. -/
def parseSchemaVariable : VarSchema → Except String Variable
  | .velem v => .ok v
  | .vnone => .error "variable schema is nil"
  | .vfields _ => .error "variable schema is a field list"

/-- The JSON round trip of canvas.go lines 1818-1826: marshal the object's
Schema payload, unmarshal into a variable slice.  A field list round-trips
to itself, a JSON null unmarshals into an empty slice without error, a
single object payload fails to unmarshal into a slice. -/
def varSchemaToVariableList : VarSchema → Except String (List Variable)
  | .vfields vs => .ok vs
  | .vnone => .ok []
  | .velem _ => .error "failed to unmarshal obj schema into variable list"

/-- The batch parent's output param (canvas.go lines 1829-1844): a list
ref pointing at all outputs of the generated inner node. -/
def batchOuterOutputParam (n : Node) (v objV : Variable) : Param :=
  { PName := v.Name,
    Input := some
      { BType := VariableType.list,
        Schema := .bvar objV,
        Value := some
          { VType := "ref",
            Content := some (.ref
              { BlockID := GenerateNodeIDForBatchMode n.ID,
                RefName := "",
                Path := [],
                Source := "block-output" }) } } }

/-- The regenerated inner node (canvas.go lines 1880-1899): the original
node's type and input parameters under the "_inner" id, outputs the
object element's fields, carrying over the type-specific configs. -/
def batchInnerNodeOf (n : Node) (inp : Inputs) (meta : NodeMetaFE)
    (innerOutput : List Variable) : Node :=
  Node.mk (n.ID ++ "_inner") n.NType
    (some
      { Meta := some { Title := meta.Title ++ "_inner" },
        Outputs := innerOutput.map OutputAny.ofVar,
        Inputs := some
          { InputParameters := inp.InputParameters,
            NodeBatchInfo := none,
            Batch := none,
            LLMParam := inp.LLMParam,
            LLMCfg := inp.LLMCfg,
            SettingOnError := inp.SettingOnError,
            SubWorkflowCfg := inp.SubWorkflowCfg,
            PluginAPIParam := inp.PluginAPIParam } })
    [] []

/-- The two internal edges between batch parent and inner node
(canvas.go lines 1905-1916). -/
def batchInternalEdges (n : Node) : List Edge :=
  [ { SourceNodeID := n.ID,
      TargetNodeID := n.ID ++ "_inner",
      SourcePortID := "batch-function-inline-output",
      TargetPortID := "" },
    { SourceNodeID := n.ID ++ "_inner",
      TargetNodeID := n.ID,
      SourcePortID := "",
      TargetPortID := "batch-function-inline-input" } ]

/-- The batch parent node (canvas.go lines 1847-1919): keyed by the
original id, of Batch type, holding the list inputs and the batch and
concurrency sizes, with the inner node as single block and the two
internal edges. -/
def batchParentNodeOf (n : Node) (inp : Inputs) (batchInfo : NodeBatch)
    (meta : NodeMetaFE) (v objV : Variable) (innerOutput : List Variable) : Node :=
  Node.mk n.ID NodeTypeBatchIDStr
    (some
      { Meta := some { Title := meta.Title },
        Outputs := [OutputAny.ofParam (batchOuterOutputParam n v objV)],
        Inputs := some
          { InputParameters := batchInfo.InputLists,
            NodeBatchInfo := none,
            Batch := some
              { BatchSize := some
                  { BType := VariableType.integer,
                    Schema := .bnone,
                    Value := some
                      { VType := "literal",
                        Content := some (.litStr (intDecimalStr batchInfo.BatchSize)) } },
                ConcurrentSize := some
                  { BType := VariableType.integer,
                    Schema := .bnone,
                    Value := some
                      { VType := "literal",
                        Content := some (.litStr (intDecimalStr batchInfo.ConcurrentSize)) } } },
            LLMParam := none,
            LLMCfg := none,
            SettingOnError := none,
            SubWorkflowCfg := none,
            PluginAPIParam := none } })
    [batchInnerNodeOf n inp meta innerOutput]
    (batchInternalEdges n)

/-- parseBatchMode, canvas.go lines 1763-1922.  Returns `none` when batch
mode is not enabled, otherwise the replacement Batch parent node whose
single block is the regenerated inner node.  The dereference of the
node's front-end meta (which would panic in Go on a nil Meta) surfaces as
a panicWrapped error. -/
def parseBatchMode (n : Node) : Except CompileErr (Option Node) :=
  match n.NData with
  | none => .ok none
  | some d =>
    match d.Inputs with
    | none => .ok none
    | some inp =>
      match inp.NodeBatchInfo with
      | none => .ok none
      | some batchInfo =>
        if batchInfo.BatchEnable = false then .ok none
        else
          match d.Outputs with
          | [out] =>
            (match ParseVariable out with
             | .error e => .error (.conv e)
             | .ok v =>
               if v.VType ≠ VariableType.list then
                 .error (.conv "node batch mode output should be list")
               else
                 match parseSchemaVariable v.Schema with
                 | .error e =>
                   .error (.conv
                     ("node batch mode output schema should be variable, parse err: " ++ e))
                 | .ok objV =>
                   if objV.VType ≠ VariableType.object then
                     .error (.conv "node batch mode output element should be object")
                   else
                     match varSchemaToVariableList objV.Schema with
                     | .error e => .error (.conv e)
                     | .ok innerOutput =>
                       match d.Meta with
                       | none => .error (.panicWrapped "nil node meta")
                       | some meta =>
                         .ok (some
                           (batchParentNodeOf n inp batchInfo meta v objV innerOutput)))
          | _ => .error (.conv "node batch mode output should be one list")

/-! ### Node adaptation (canvas.go lines 1352-1411) -/

/-- Title of a node's front-end meta, empty when absent. -/
def nodeTitle (n : Node) : String :=
  match n.NData with
  | some d =>
    match d.Meta with
    | some m => m.Title
    | none => ""
  | none => ""

/-- Modelled from the spec: a registered NodeAdaptor converts a canvas node
into a NodeSchema keyed by the node's ID (spec §4.2).  The adaptor
implementations live outside the snapshot, so the typed IO, configs and
stream flags they compute are left at stand-in defaults; only the key,
type and name are relied on by the verified claims. -/
def adaptNode (n : Node) : NodeSchema :=
  { Key := n.ID, NType := n.NType, Name := nodeTitle n,
    Configs := "", InputTypes := "", InputSources := [], OutputTypes := "",
    OutputSources := [], ExceptionConfigs := none, SubWorkflowBasic := none,
    StreamConfigs := none, SubWorkflowSchemaRepr := none }

/-- Modelled from the spec: sub-workflow nodes load and recursively
compile the referenced workflow and carry `sub_workflow_basic` plus the
embedded schema (spec §4.1 step 3); repository access is outside the
model, so the result is a schema keyed by the node ID with a stand-in
basic payload. -/
def toSubWorkflowNodeSchema (n : Node) : Except String NodeSchema :=
  .ok { adaptNode n with SubWorkflowBasic := some "sub-workflow-basic" }

mutual
/-- NodeToNodeSchema, canvas.go lines 1352-1411: sub-workflow nodes get a
dedicated conversion, registered adaptors convert ordinary nodes and
recurse into composite children (collecting hierarchy entries child →
parent, the parent schema appended last), comments are skipped, anything
else is an unsupported block type. -/
def NodeToNodeSchema : Node →
    Except String (List NodeSchema × List (NodeKey × NodeKey))
  | .mk nid ntyp ndata blocks nedges =>
    let n : Node := .mk nid ntyp ndata blocks nedges
    if ntyp = NodeTypeSubWorkflowIDStr then
      match toSubWorkflowNodeSchema n with
      | .error e => .error e
      | .ok ns => .ok ([ns], [])
    else if hasNodeAdaptor ntyp then
      let ns := adaptNode n
      match blocks with
      | [] => .ok ([ns], [])
      | _ :: _ =>
        match childNodeSchemas blocks with
        | .error e => .error e
        | .ok allNS => .ok (allNS ++ [ns], blocks.map (fun c => (c.ID, nid)))
    else if ntyp = NodeTypeCommentIDStr then .ok ([], [])
    else .error ("unsupported block type: " ++ ntyp)

/-- The child loop of NodeToNodeSchema (canvas.go lines 1386-1395); the
children's own hierarchy results are discarded as in the source. -/
def childNodeSchemas : List Node → Except String (List NodeSchema)
  | [] => .ok []
  | c :: rest =>
    match NodeToNodeSchema c with
    | .error e => .error e
    | .ok res =>
      match childNodeSchemas rest with
      | .error e => .error e
      | .ok more => .ok (res.1 ++ more)
end

/-! ### Edge conversion and port normalization (canvas.go lines 1261-1451) -/

/-- EdgeToConnection, canvas.go lines 1432-1451.  The re-target to END
fires only when the source port is non-empty AND the target port is one
of the two inline-input ports; the FromPort is recorded whenever the
source node ID is non-empty. -/
def EdgeToConnection (e : Edge) : Connection :=
  let toNode :=
    if e.SourcePortID.length > 0 ∧
        (e.TargetPortID = "loop-function-inline-input" ∨
         e.TargetPortID = "batch-function-inline-input")
    then END else e.TargetNodeID
  { FromNode := e.SourceNodeID, ToNode := toNode,
    FromPort := if e.SourceNodeID.length > 0 then some e.SourcePortID else none }

/-- Value of a decimal digit list. -/
def digitsToNat (l : List Char) : Nat :=
  l.foldl (fun acc c => acc * 10 + (c.toNat - 48)) 0

/-- strconv.Atoi: an optional single sign followed by decimal digits, the
value within the 64-bit signed integer range; anything else errors. -/
def goAtoi (s : String) : Option Int :=
  let signDigits : Int × String :=
    if strStartsWith s "-" then (-1, strDrop s 1)
    else if strStartsWith s "+" then (1, strDrop s 1)
    else (1, s)
  let digits := signDigits.2
  if digits.length == 0 || !digits.data.all Char.isDigit then none
  else
    let v : Int := signDigits.1 * (digitsToNat digits.data)
    if v < -(2 ^ 63) ∨ v > 2 ^ 63 - 1 then none else some v

/-- schema.PortDefault; the value "default" appears in the canvas.go
comments at the use site (line 1299). -/
def PortDefault : String := "default"

/-- fmt.Sprintf(schema.PortBranchFormat, n): "branch_N" per the canvas.go
comments at the use sites (lines 1297, 1301). -/
def branchPort (n : Int) : String := "branch_" ++ intDecimalStr n

/-- normalizePorts, canvas.go lines 1261-1322. -/
def normalizePorts : List Connection → List (String × Node) →
    Except String (List Connection)
  | [], _ => .ok []
  | conn :: rest, nodeMap =>
    let keep (c : Connection) : Except String (List Connection) :=
      match normalizePorts rest nodeMap with
      | .error e => .error e
      | .ok nrest => .ok (c :: nrest)
    match conn.FromPort with
    | none => keep conn
    | some p =>
      if p.length = 0 then keep { conn with FromPort := none }
      else if p = "loop-function-inline-output" ∨ p = "loop-output" ∨
          p = "batch-function-inline-output" ∨ p = "batch-output" then
        keep { conn with FromPort := none }
      else
        match lookupAssoc nodeMap conn.FromNode with
        | none => .error ("node " ++ conn.FromNode ++ " not found in node map")
        | some node =>
          if node.NType = NodeTypeSelectorIDStr then
            if p = "true" then
              keep { FromNode := conn.FromNode, ToNode := conn.ToNode,
                     FromPort := some (branchPort 0) }
            else if p = "false" then
              keep { FromNode := conn.FromNode, ToNode := conn.ToNode,
                     FromPort := some PortDefault }
            else if strStartsWith p "true_" then
              match goAtoi (strDrop p 5) with
              | none => .error ("invalid port name: " ++ p)
              | some k =>
                keep { FromNode := conn.FromNode, ToNode := conn.ToNode,
                       FromPort := some (branchPort k) }
            else
              keep { FromNode := conn.FromNode, ToNode := conn.ToNode,
                     FromPort := some "" }
          else
            keep { FromNode := conn.FromNode, ToNode := conn.ToNode,
                   FromPort := some p }

/-! ### Isolation pruning (canvas.go lines 1659-1722) -/

/-- The edge pass of PruneIsolatedNodes (canvas.go lines 1689-1695):
increment the target's dependency count, panicking (here: erroring) when
the target is not a counted node. -/
def countEdgeTargets : List Edge → List (String × Nat) →
    Except String (List (String × Nat))
  | [], count => .ok count
  | e :: rest, count =>
    match lookupAssoc count e.TargetNodeID with
    | some _ => countEdgeTargets rest (bumpAssoc count e.TargetNodeID)
    | none =>
      .error ("node id " ++ e.TargetNodeID ++ " not existed, but appears in the edge")

/-- The seed-count-filter tail of PruneIsolatedNodes (canvas.go lines
1684-1721): force the entry/exit keys reachable, count edge targets
(panicking on unknown targets), and drop zero-count nodes together with
the edges they source. -/
def pruneFinish (nodes1 : List Node) (count1 : List (String × Nat))
    (edges : List Edge) : Except String (List Node × List Edge) :=
  let count2 := updateAssoc (updateAssoc count1 EntryNodeKey 1) ExitNodeKey 1
  match countEdgeTargets edges count2 with
  | .error e => .error e
  | .ok count3 =>
    let isolated := (count3.filter (fun kv => kv.2 = 0)).map Prod.fst
    .ok (nodes1.filter (fun nd => ¬ isolated.contains nd.ID),
         edges.filter (fun e => ¬ isolated.contains e.SourceNodeID))

mutual
/-- The composite-pruning step for a single node in the first pass of
PruneIsolatedNodes (canvas.go lines 1669-1671): a node carrying both
blocks and edges has them pruned recursively (the inlined recursive call
to PruneIsolatedNodes with this node as parent). -/
def prunePass1Node : Node → Except String Node
  | .mk nid ntyp ndata blocks nedges =>
    match blocks, nedges with
    | b0 :: btl, e0 :: etl =>
      (match prunePass1 (b0 :: btl) [(nid, 0)]
          (some (.mk nid ntyp ndata blocks nedges)) with
       | .error e => .error e
       | .ok bc =>
         match pruneFinish bc.1 bc.2 (e0 :: etl) with
         | .error e => .error e
         | .ok be =>
           .ok (Node.withBlocksEdges (.mk nid ntyp ndata blocks nedges) be.1 be.2))
    | _, _ => .ok (.mk nid ntyp ndata blocks nedges)

/-- The first pass of PruneIsolatedNodes (canvas.go lines 1667-1682):
recursively prune composites, zero each node's dependency count, and let
break/continue blocks count as a use of the parent. -/
def prunePass1 : List Node → List (String × Nat) → Option Node →
    Except String (List Node × List (String × Nat))
  | [], count, _ => .ok ([], count)
  | node :: rest, count, parentNode =>
    match prunePass1Node node with
    | .error e => .error e
    | .ok node1 =>
      let count1 := updateAssoc count node.ID 0
      let count2 :=
        if node.NType = NodeTypeContinueIDStr ∨ node.NType = NodeTypeBreakIDStr then
          match parentNode with
          | some p => bumpAssoc count1 p.ID
          | none => count1
        else count1
      match prunePass1 rest count2 parentNode with
      | .error e => .error e
      | .ok rc => .ok (node1 :: rc.1, rc.2)
end

/-- PruneIsolatedNodes, canvas.go lines 1659-1722.  An error return stands
for the Go panic raised on an edge whose target node does not exist. -/
def PruneIsolatedNodes (nodes : List Node) (edges : List Edge)
    (parentNode : Option Node) : Except String (List Node × List Edge) :=
  let initCount : List (String × Nat) :=
    match parentNode with
    | some p => [(p.ID, 0)]
    | none => []
  match prunePass1 nodes initCount parentNode with
  | .error e => .error e
  | .ok nc => pruneFinish nc.1 nc.2 edges

/-! ### CanvasToWorkflowSchema (canvas.go lines 1124-1234) -/

/-- Modelled from the spec: schema.BuildBranches groups, per branching
node, the outgoing port set into a BranchSchema (spec §4.1 step 7; the Go
function lives outside the snapshot). -/
def BuildBranches (conns : List Connection) : List (NodeKey × BranchSchema) :=
  conns.foldl
    (fun m c =>
      match c.FromPort with
      | some p =>
        match lookupAssoc m c.FromNode with
        | some br => updateAssoc m c.FromNode ⟨br.Ports ++ [p]⟩
        | none => m ++ [(c.FromNode, ⟨[p]⟩)]
      | none => m)
    []

/-- The accumulating state of the per-node loop of CanvasToWorkflowSchema
(connections, node schemas, hierarchy, generated nodes, plus the node map
handed to normalizePorts). -/
structure CompileAcc where
  Connections : List Connection
  SchemaNodes : List NodeSchema
  Hierarchy : List (NodeKey × NodeKey)
  GeneratedNodes : List NodeKey
  nodeMap : List (String × Node)

/-- ID of a node's first block (Go `node.Blocks[0].ID`; parseBatchMode
always produces exactly one block). -/
def firstBlockID (n : Node) : String :=
  match n.Blocks with
  | b :: _ => b.ID
  | [] => ""

/-- The inner loop over a node's blocks in CanvasToWorkflowSchema
(canvas.go lines 1150-1171): record each block in the node map, reject
nested inner workflows and blocks carrying edges, and connect break and
continue blocks to their parent. -/
def processBlocks (parentID : String) : List Node → CompileAcc →
    Except CompileErr CompileAcc
  | [], acc => .ok acc
  | sub :: rest, acc =>
    let acc1 := { acc with nodeMap := updateAssoc acc.nodeMap sub.ID sub }
    if !sub.Blocks.isEmpty then
      .error (.conv "nested inner-workflow is not supported")
    else if !sub.Edges.isEmpty then
      .error (.conv "nodes in inner-workflow should not have edges info")
    else
      let acc2 :=
        if sub.NType = NodeTypeBreakIDStr ∨ sub.NType = NodeTypeContinueIDStr then
          { acc1 with Connections := acc1.Connections ++ [⟨sub.ID, parentID, none⟩] }
        else acc1
      processBlocks parentID rest acc2

/-- One iteration of the node loop of CanvasToWorkflowSchema (canvas.go
lines 1146-1209): record the node, process its blocks, expand batch mode,
adapt to node schemas, merge hierarchy, and convert the node's internal
edges. -/
def processNode (acc : CompileAcc) (node : Node) : Except CompileErr CompileAcc :=
  let acc0 := { acc with nodeMap := updateAssoc acc.nodeMap node.ID node }
  match processBlocks node.ID node.Blocks acc0 with
  | .error e => .error e
  | .ok acc1 =>
    match parseBatchMode node with
    | .error e => .error e
    | .ok batchResult =>
      let nodeAcc : Node × CompileAcc :=
        match batchResult with
        | some newNode =>
          (newNode,
            { acc1 with GeneratedNodes := acc1.GeneratedNodes ++ [firstBlockID newNode] })
        | none => (node, acc1)
      match NodeToNodeSchema nodeAcc.1 with
      | .error e => .error (.conv e)
      | .ok nsh =>
        let acc2 :=
          { nodeAcc.2 with
            SchemaNodes := nodeAcc.2.SchemaNodes ++ nsh.1,
            Hierarchy := nodeAcc.2.Hierarchy ++ nsh.2 }
        .ok { acc2 with
              Connections := acc2.Connections ++ nodeAcc.1.Edges.map EdgeToConnection }

/-- The node loop of CanvasToWorkflowSchema. -/
def foldProcessNodes : List Node → CompileAcc → Except CompileErr CompileAcc
  | [], acc => .ok acc
  | n :: rest, acc =>
    match processNode acc n with
    | .error e => .error e
    | .ok acc2 => foldProcessNodes rest acc2

/-- CanvasToWorkflowSchema, canvas.go lines 1124-1234: prune isolated
nodes (a panic there is recovered and wrapped), run the node loop, convert
canvas-level edges, normalize ports, build branches.  `Init` only fills
runtime caches recomputed by the getters here. -/
def CanvasToWorkflowSchema (s : Canvas) : Except CompileErr WorkflowSchema :=
  match PruneIsolatedNodes s.Nodes s.Edges none with
  | .error p => .error (.panicWrapped p)
  | .ok pruned =>
    match foldProcessNodes pruned.1 ⟨[], [], [], [], []⟩ with
    | .error e => .error e
    | .ok acc =>
      let conns := acc.Connections ++ pruned.2.map EdgeToConnection
      match normalizePorts conns acc.nodeMap with
      | .error e => .error (.conv e)
      | .ok newConnections =>
        .ok { Nodes := acc.SchemaNodes, Connections := newConnections,
              Hierarchy := acc.Hierarchy,
              Branches := BuildBranches newConnections,
              GeneratedNodes := acc.GeneratedNodes }

/-! ## Service layer (service_impl.go) -/

/-- The stored draft row, service_impl.go / vo.DraftInfo: the canvas is
kept in parsed form (the JSON round trip is modelled as the identity). -/
structure DraftInfo where
  DraftCanvas : Canvas
  TestRunSuccess : Bool
  Modified : Bool
  CommitID : String

/-- Result of repo.DraftV2: an existing draft, the gorm record-not-found
error, or another database error. -/
inductive DraftLookup : Type where
  | found (d : DraftInfo)
  | notFound
  | dbError (msg : String)

/-- impl.calculateTestRunSuccess, service_impl.go lines 2132-2166.  The
previous draft's stored canvas string is modelled as an already-parsed
canvas (its ignored unmarshal error at line 2150 therefore has no
counterpart). -/
def calculateTestRunSuccess (c : Canvas) (prev : DraftLookup) :
    Except String Bool :=
  match CanvasToWorkflowSchema c with
  | .error _ => .ok false
  | .ok sc =>
    match prev with
    | .notFound => .ok false
    | .dbError m => .error m
    | .found existedDraft =>
      match CanvasToWorkflowSchema existedDraft.DraftCanvas with
      | .ok existedSc =>
        if ¬ (existedSc.IsEqual sc) then .ok false
        else .ok existedDraft.TestRunSuccess
      | .error _ => .ok false

/-- impl.Save, service_impl.go lines 216-257: compute the inherited or
reset test-run flag, generate a commit id, and upsert the draft (returned
here as the stored row; parameter extraction and serialization are
best-effort side channels the claims do not touch). -/
def Save (c : Canvas) (prev : DraftLookup) (commitID : Int) :
    Except String DraftInfo :=
  match calculateTestRunSuccess c prev with
  | .error e => .error e
  | .ok testRunSuccess =>
    .ok { DraftCanvas := c, TestRunSuccess := testRunSuccess,
          Modified := true, CommitID := intDecimalStr commitID }

/-! ### Publish version gate (service_impl.go lines 874-895) -/

/-- Whether a character list is a non-empty run of decimal digits, and
its value. -/
def decimalNat (l : List Char) : Option Nat :=
  if l.length == 0 || !l.all Char.isDigit then none
  else some (digitsToNat l)

/-- Modelled from the spec: parseVersion parses `vA.B.C` with non-negative
integers (spec §4.6); the helper's Go file is outside the snapshot. -/
def parseVersion (s : String) : Except String (Nat × Nat × Nat) :=
  if ¬ strStartsWith s "v" then .error ("invalid version format: " ++ s)
  else
    match splitOnChar '.' (strDrop s 1).data with
    | [a, b, c] =>
      match decimalNat a, decimalNat b, decimalNat c with
      | some x, some y, some z => .ok (x, y, z)
      | _, _, _ => .error ("invalid version format: " ++ s)
    | _ => .error ("invalid version format: " ++ s)

/-- Strict lexicographic order on parsed versions. -/
def versionLt (a b : Nat × Nat × Nat) : Prop :=
  a.1 < b.1 ∨ (a.1 = b.1 ∧ (a.2.1 < b.2.1 ∨ (a.2.1 = b.2.1 ∧ a.2.2 < b.2.2)))

instance (a b : Nat × Nat × Nat) : Decidable (versionLt a b) := by
  unfold versionLt; infer_instance

/-- Modelled from the spec: isIncremental demands the new version be
strictly greater than the old under lexicographic order on (A, B, C)
(spec §4.6). -/
def isIncremental (oldV newV : Nat × Nat × Nat) : Bool :=
  decide (versionLt oldV newV)

/-- The version-monotonicity gate at the start of impl.Publish,
service_impl.go lines 881-895: nothing is checked when no version was
published yet; otherwise both versions must parse and the new one must be
strictly greater. -/
def publishVersionCheck (latestPublishedVersion : Option String)
    (newVersion : String) : Except String Unit :=
  match latestPublishedVersion with
  | none => .ok ()
  | some lv =>
    match parseVersion lv with
    | .error e => .error e
    | .ok latestVersion =>
      match parseVersion newVersion with
      | .error e => .error e
      | .ok currentVersion =>
        if ¬ isIncremental latestVersion currentVersion then
          .error ("the version number is not self-incrementing, old version " ++
            lv ++ ", current version is " ++ newVersion)
        else .ok ()

/-! ### ChatFlow adaptation (service_impl.go lines 2373-2436) -/

/-- vo.UserInputKey.  Modelled from the spec: the ChatFlow entry exposes a
well-known USER_INPUT field (spec §4.9); the constant's file is outside
the snapshot. -/
def UserInputKey : String := "USER_INPUT"

/-- vo.ConversationNameKey.  Modelled from the spec: the ChatFlow entry
exposes a well-known CONVERSATION_NAME field (spec §4.9). -/
def ConversationNameKey : String := "CONVERSATION_NAME"

/-- The variable appended for a missing USER_INPUT output
(service_impl.go lines 2414-2419): name and string type only. -/
def userInputVariable : Variable :=
  .mk UserInputKey VariableType.string false "" none .vnone

/-- The variable appended for a missing CONVERSATION_NAME output
(service_impl.go lines 2422-2428): name, string type and the literal
default value "Default". -/
def conversationNameVariable : Variable :=
  .mk ConversationNameKey VariableType.string false "" (some "Default") .vnone

/-- Collect the parsed names of a node's outputs (the vMap loop,
service_impl.go lines 2404-2411). -/
def outputNames : List OutputAny → Except String (List String)
  | [] => .ok []
  | o :: rest =>
    match ParseVariable o with
    | .error e => .error e
    | .ok v =>
      match outputNames rest with
      | .error e => .error e
      | .ok more => .ok (v.Name :: more)

/-- Append the missing well-known fields to the entry node's outputs
(service_impl.go lines 2404-2428). -/
def adaptEntryOutputs (outs : List OutputAny) :
    Except String (List OutputAny) :=
  match outputNames outs with
  | .error e => .error e
  | .ok names =>
    let outs1 :=
      if names.contains UserInputKey then outs
      else outs ++ [.ofVar userInputVariable]
    let outs2 :=
      if names.contains ConversationNameKey then outs1
      else outs1 ++ [.ofVar conversationNameVariable]
    .ok outs2

/-- Replace the data of the first entry node (the pointer mutation of
startNode inside the canvas). -/
def replaceFirstEntryOutputs : List Node → List OutputAny → List Node
  | [], _ => []
  | n :: rest, outs =>
    if n.NType = NodeTypeEntryIDStr then
      (match n with
       | .mk nid ntyp ndata blocks nedges =>
         (Node.mk nid ntyp
           (match ndata with
            | some d => some { d with Outputs := outs }
            | none => none)
           blocks nedges)) :: rest
    else n :: replaceFirstEntryOutputs rest outs

/-- First node of entry type, mirroring the startNode search loop
(service_impl.go lines 2391-2397). -/
def findEntryNode : List Node → Option Node
  | [] => none
  | n :: rest => if n.NType = NodeTypeEntryIDStr then some n else findEntryNode rest

/-- impl.adaptToChatFlow, service_impl.go lines 2373-2436, up to the final
re-save: returns the modified canvas string that is handed to Save (the
JSON round trip is the identity here).  A nil entry data in Go would panic
on the Outputs dereference; that case surfaces as an error. -/
def adaptToChatFlow (c : Canvas) : Except String Canvas :=
  match findEntryNode c.Nodes with
  | none => .error "can not find start node"
  | some startNode =>
    match startNode.NData with
    | none => .error "nil entry node data"
    | some d =>
      match adaptEntryOutputs d.Outputs with
      | .error e => .error e
      | .ok outs =>
        .ok { c with Nodes := replaceFirstEntryOutputs c.Nodes outs }

/-- The tail of impl.UpdateMeta when switching to ChatFlow
(service_impl.go lines 943-948 and 2430-2435): adapt the canvas and save
it again via Save. -/
def adaptToChatFlowAndSave (c : Canvas) (prev : DraftLookup) (commitID : Int) :
    Except String DraftInfo :=
  match adaptToChatFlow c with
  | .error e => .error e
  | .ok c2 => Save c2 prev commitID

/-! ## Concrete example values used by witnesses and counterexamples -/

/-- Empty node inputs. -/
def emptyInputs : Inputs :=
  { InputParameters := [], NodeBatchInfo := none, Batch := none,
    LLMParam := none, LLMCfg := none, SettingOnError := none,
    SubWorkflowCfg := none, PluginAPIParam := none }

/-- A minimal Entry node. -/
def entryNode : Node :=
  .mk EntryNodeKey NodeTypeEntryIDStr
    (some { Meta := some { Title := "Start" }, Outputs := [],
            Inputs := some emptyInputs })
    [] []

/-- A minimal Exit node. -/
def exitNode : Node :=
  .mk ExitNodeKey NodeTypeExitIDStr
    (some { Meta := some { Title := "End" }, Outputs := [],
            Inputs := some emptyInputs })
    [] []

/-- A canvas containing only Entry and Exit, connected. -/
def simpleCanvas : Canvas :=
  { Nodes := [entryNode, exitNode],
    Edges := [{ SourceNodeID := EntryNodeKey, TargetNodeID := ExitNodeKey,
                SourcePortID := "", TargetPortID := "" }] }

/-- The simple canvas plus an extra edge whose source node does not exist
anywhere in the canvas. -/
def ghostSourceCanvas : Canvas :=
  { Nodes := [entryNode, exitNode],
    Edges := [{ SourceNodeID := EntryNodeKey, TargetNodeID := ExitNodeKey,
                SourcePortID := "", TargetPortID := "" },
              { SourceNodeID := "ghost", TargetNodeID := ExitNodeKey,
                SourcePortID := "", TargetPortID := "" }] }

/-- The simple canvas plus an edge whose target node does not exist:
isolation pruning panics on it. -/
def badTargetCanvas : Canvas :=
  { Nodes := [entryNode, exitNode],
    Edges := [{ SourceNodeID := EntryNodeKey, TargetNodeID := ExitNodeKey,
                SourcePortID := "", TargetPortID := "" },
              { SourceNodeID := EntryNodeKey, TargetNodeID := "nonexistent",
                SourcePortID := "", TargetPortID := "" }] }

/-- The answer field of the batch example's object element. -/
def batchAnswerField : Variable :=
  .mk "answer" VariableType.string false "" none .vnone

/-- The object element of the batch example's output list. -/
def batchObjElem : Variable :=
  .mk "results_elem" VariableType.object false "" none (.vfields [batchAnswerField])

/-- A list-of-object output variable, `results: list(object, answer: string)`. -/
def batchOutputVariable : Variable :=
  .mk "results" VariableType.list false "" none (.velem batchObjElem)

/-- The batch info of the batch example. -/
def batchModeInfo : NodeBatch :=
  { BatchEnable := true, BatchSize := 4, ConcurrentSize := 2,
    InputLists := [{ PName := "items", Input := none }] }

/-- The inputs of the batch example node. -/
def batchModeInputs : Inputs :=
  { InputParameters := [{ PName := "query", Input := none }],
    NodeBatchInfo := some batchModeInfo,
    Batch := none, LLMParam := some "llm-param", LLMCfg := none,
    SettingOnError := none, SubWorkflowCfg := none, PluginAPIParam := none }

/-- The data of the batch example node. -/
def batchModeData : Data :=
  { Meta := some { Title := "llm" },
    Outputs := [.ofVar batchOutputVariable],
    Inputs := some batchModeInputs }

/-- An LLM node with batch mode enabled, one input parameter and the
list-of-object output above. -/
def batchModeNode : Node :=
  .mk "7001" NodeTypeLLMIDStr (some batchModeData) [] []

/-- The batch node with outputs that are not a single list-of-object. -/
def batchModeNodeBadOutputs : Node :=
  .mk "7001" NodeTypeLLMIDStr
    (some { Meta := some { Title := "llm" },
            Outputs := [.ofVar (.mk "answer" VariableType.string false "" none .vnone)],
            Inputs := some
              { InputParameters := [{ PName := "query", Input := none }],
                NodeBatchInfo := some
                  { BatchEnable := true, BatchSize := 4, ConcurrentSize := 2,
                    InputLists := [{ PName := "items", Input := none }] },
                Batch := none, LLMParam := none, LLMCfg := none,
                SettingOnError := none, SubWorkflowCfg := none,
                PluginAPIParam := none } })
    [] []

/-- A bare selector node. -/
def selectorNode : Node := .mk "sel" NodeTypeSelectorIDStr none [] []

/-- A bare LLM node keyed "llm1". -/
def plainLLMNode : Node := .mk "llm1" NodeTypeLLMIDStr none [] []

/-- A node map holding the selector and a non-selector node. -/
def selNodeMap : List (String × Node) :=
  [("sel", selectorNode), ("llm1", plainLLMNode)]

/-! ## Well-formedness assumptions for the connection-endpoint invariant -/

/-- Node types the compiler turns into node schemas keyed by the node ID:
registered adaptor types and sub-workflow nodes.  Comment nodes are
excluded: they are silently skipped and yield no schema. -/
def schemaYieldingType (t : String) : Prop :=
  hasNodeAdaptor t = true ∨ t = NodeTypeSubWorkflowIDStr

/-- A node whose batch info is enabled (the guard of parseBatchMode). -/
def batchEnabled (n : Node) : Prop :=
  ∃ d inp bi, n.NData = some d ∧ d.Inputs = some inp ∧
    inp.NodeBatchInfo = some bi ∧ bi.BatchEnable = true

/-- Edge endpoints confined to a set of IDs. -/
def edgeWithin (ids : List String) (e : Edge) : Prop :=
  e.SourceNodeID ∈ ids ∧ e.TargetNodeID ∈ ids

/-- Per-node assumptions of the amended connection-endpoint invariant:
the node has a schema-yielding (non-comment) type, its internal edges
reference the node itself or its blocks, its blocks have schema-yielding
types, and batch-enabled as well as sub-workflow nodes carry no blocks. -/
def WFNode (n : Node) : Prop :=
  schemaYieldingType n.NType ∧
  (∀ e ∈ n.Edges, edgeWithin (n.ID :: n.Blocks.map Node.ID) e) ∧
  (∀ b ∈ n.Blocks, schemaYieldingType b.NType) ∧
  (batchEnabled n → n.Blocks = []) ∧
  (n.NType = NodeTypeSubWorkflowIDStr → n.Blocks = [])

/-- Assumptions of the amended connection-endpoint invariant: every canvas
edge references existing top-level nodes, and every node satisfies the
per-node conditions. -/
def WellFormedCanvas (c : Canvas) : Prop :=
  (∀ e ∈ c.Edges, edgeWithin (c.Nodes.map Node.ID) e) ∧
  (∀ n ∈ c.Nodes, WFNode n)

/-- Keys of a schema node list. -/
def keysOf (ns : List NodeSchema) : List NodeKey := ns.map NodeSchema.Key

/-- A connection whose endpoints resolve: the from-node is a schema key
and the to-node is END or a schema key. -/
def ConnOK (keys : List NodeKey) (c : Connection) : Prop :=
  c.FromNode ∈ keys ∧ (c.ToNode = END ∨ c.ToNode ∈ keys)

/-! # Theorems -/

/-- C3: when a latest published version exists and parses as vA.B.C, the
Publish version gate errors exactly when the new version string does not
parse to a strictly greater (A, B, C) triple under lexicographic order —
in particular re-publishing the same version, or a lower parallel bump
such as v1.1.0 after v1.2.0, is rejected — and when no version has been
published yet the gate accepts. -/
theorem C3_publish_version_monotonicity (lv v : String) (L : Nat × Nat × Nat)
    (hL : parseVersion lv = .ok L) :
    ((∃ e, publishVersionCheck (some lv) v = .error e) ↔
      ¬ ∃ V, parseVersion v = .ok V ∧ versionLt L V) ∧
    publishVersionCheck none v = .ok () := by
  refine ⟨?_, rfl⟩
  simp only [publishVersionCheck, hL]
  cases hp : parseVersion v with
  | error e =>
    constructor
    · rintro - ⟨V, hV, -⟩
      simp at hV
    · intro _
      exact ⟨e, rfl⟩
  | ok V =>
    by_cases hlt : versionLt L V
    · have hinc : isIncremental L V = true := by
        simp [isIncremental, hlt]
      constructor
      · rintro ⟨e, he⟩
        simp [hinc] at he
      · intro hno
        exact absurd ⟨V, rfl, hlt⟩ hno
    · have hinc : isIncremental L V = false := by
        simp [isIncremental, hlt]
      constructor
      · rintro - ⟨V', hV', hlt'⟩
        cases hV'
        exact hlt hlt'
      · intro _
        exact ⟨"the version number is not self-incrementing, old version " ++
          lv ++ ", current version is " ++ v, by simp [hinc]⟩

/-- Helper: a string is non-empty iff its length is positive. -/
theorem str_ne_empty_iff (s : String) : s ≠ "" ↔ 0 < s.length := by
  cases s with
  | mk data =>
    cases data with
    | nil => simp [String.length]
    | cons c cs =>
      constructor
      · intro _
        simp [String.length]
      · intro _ hceq
        have : (String.mk (c :: cs)).data = ("" : String).data := by rw [hceq]
        simp at this

/-- Helper: whenever parseBatchMode succeeds with a replacement node, that
node is the batch parent construction for suitable intermediate values. -/
theorem parseBatchMode_some_shape (n parent : Node)
    (h : parseBatchMode n = .ok (some parent)) :
    ∃ d inp batchInfo meta v objV innerOutput,
      n.NData = some d ∧ d.Inputs = some inp ∧
      inp.NodeBatchInfo = some batchInfo ∧ batchInfo.BatchEnable = true ∧
      d.Meta = some meta ∧
      parent = batchParentNodeOf n inp batchInfo meta v objV innerOutput := by
  cases hnd : n.NData with
  | none => simp [parseBatchMode, hnd] at h
  | some d =>
  cases hin : d.Inputs with
  | none => simp [parseBatchMode, hnd, hin] at h
  | some inp =>
  cases hbi : inp.NodeBatchInfo with
  | none => simp [parseBatchMode, hnd, hin, hbi] at h
  | some batchInfo =>
  cases hen : batchInfo.BatchEnable with
  | false => simp [parseBatchMode, hnd, hin, hbi, hen] at h
  | true =>
  cases hout : d.Outputs with
  | nil => simp [parseBatchMode, hnd, hin, hbi, hen, hout] at h
  | cons out rest =>
  cases rest with
  | cons o2 r2 => simp [parseBatchMode, hnd, hin, hbi, hen, hout] at h
  | nil =>
  cases hpv : ParseVariable out with
  | error e => simp [parseBatchMode, hnd, hin, hbi, hen, hout, hpv] at h
  | ok v =>
  by_cases hvt : v.VType = VariableType.list
  case neg => simp [parseBatchMode, hnd, hin, hbi, hen, hout, hpv, hvt] at h
  case pos =>
  cases hps : parseSchemaVariable v.Schema with
  | error e => simp [parseBatchMode, hnd, hin, hbi, hen, hout, hpv, hvt, hps] at h
  | ok objV =>
  by_cases hot : objV.VType = VariableType.object
  case neg =>
    simp [parseBatchMode, hnd, hin, hbi, hen, hout, hpv, hvt, hps, hot] at h
  case pos =>
  cases hvl : varSchemaToVariableList objV.Schema with
  | error e =>
    simp [parseBatchMode, hnd, hin, hbi, hen, hout, hpv, hvt, hps, hot, hvl] at h
  | ok innerOutput =>
  cases hmeta : d.Meta with
  | none =>
    simp [parseBatchMode, hnd, hin, hbi, hen, hout, hpv, hvt, hps, hot, hvl, hmeta] at h
  | some meta =>
    refine ⟨d, inp, batchInfo, meta, v, objV, innerOutput, rfl, hin, hbi, hen, hmeta, ?_⟩
    simp [parseBatchMode, hnd, hin, hbi, hen, hout, hpv, hvt, hps, hot, hvl, hmeta] at h
    exact h.symm

/-- C7 counterexample: the inner→parent edge generated by batch-mode
expansion has the target port batch-function-inline-input, yet the
connection produced by compilation keeps the parent node as to_node
instead of the END sentinel, because the edge's source port is empty. -/
theorem C7_counterexample_generated_edge_not_END :
    ∃ parent e1 e2,
      parseBatchMode batchModeNode = .ok (some parent) ∧
      parent.Edges = [e1, e2] ∧
      e2.TargetPortID = "batch-function-inline-input" ∧
      (EdgeToConnection e2).ToNode = "7001" ∧
      (EdgeToConnection e2).ToNode ≠ END :=
  ⟨_, _, _, rfl, rfl, rfl, rfl, by decide⟩

/-- C7 (amended): an edge whose target port is loop-function-inline-input
or batch-function-inline-input is re-targeted to the END sentinel exactly
when its source port is non-empty; an edge with an empty source port
keeps its target node, and in particular the inner→parent edge generated
by batch-mode expansion (whose source port is empty) yields a connection
whose to_node is the batch parent itself, not END. -/
theorem C7_amended_inline_input_retarget :
    (∀ e : Edge, e.SourcePortID ≠ "" →
      (e.TargetPortID = "loop-function-inline-input" ∨
       e.TargetPortID = "batch-function-inline-input") →
      (EdgeToConnection e).ToNode = END) ∧
    (∀ e : Edge, e.SourcePortID = "" →
      (EdgeToConnection e).ToNode = e.TargetNodeID) ∧
    (∀ n parent, parseBatchMode n = .ok (some parent) →
      ∃ e1 e2, parent.Edges = [e1, e2] ∧ e2.SourcePortID = "" ∧
        e2.TargetPortID = "batch-function-inline-input" ∧
        (EdgeToConnection e2).ToNode = n.ID) := by
  refine ⟨?_, ?_, ?_⟩
  · intro e hsp ht
    have hlen : 0 < e.SourcePortID.length := (str_ne_empty_iff _).mp hsp
    rcases ht with ht | ht <;> simp [EdgeToConnection, hlen, ht]
  · intro e hsp
    have hz : ("" : String).length = 0 := rfl
    simp [EdgeToConnection, hsp, hz]
  · intro n parent h
    obtain ⟨d, inp, bi, meta, v, objV, io, -, -, -, -, -, hpar⟩ :=
      parseBatchMode_some_shape n parent h
    subst hpar
    exact ⟨_, _, rfl, rfl, rfl, rfl⟩

theorem C7_amended_inline_input_retarget_witness :
    (EdgeToConnection
      { SourceNodeID := "a", TargetNodeID := "b", SourcePortID := "p",
        TargetPortID := "batch-function-inline-input" }).ToNode = END ∧
    (EdgeToConnection
      { SourceNodeID := "7001_inner", TargetNodeID := "7001",
        SourcePortID := "", TargetPortID := "batch-function-inline-input" }).ToNode =
      "7001" :=
  ⟨C7_amended_inline_input_retarget.1 _ (by decide) (Or.inr rfl),
    C7_amended_inline_input_retarget.2.1 _ rfl⟩

/-- C9: CanvasToWorkflowSchema is total — every canvas yields either a
schema or an error value — and whenever isolation pruning panics (as it
does on an edge whose target node id does not exist among the nodes),
the panic is caught and surfaced as a wrapped error; badTargetCanvas
exhibits a concrete such case. -/
theorem C9_compile_recovers_panics :
    (∀ c : Canvas, (∃ sc, CanvasToWorkflowSchema c = .ok sc) ∨
      (∃ e, CanvasToWorkflowSchema c = .error e)) ∧
    (∀ c : Canvas, ∀ p, PruneIsolatedNodes c.Nodes c.Edges none = .error p →
      CanvasToWorkflowSchema c = .error (.panicWrapped p)) ∧
    CanvasToWorkflowSchema badTargetCanvas =
      .error (.panicWrapped
        "node id nonexistent not existed, but appears in the edge") := by
  refine ⟨?_, ?_, rfl⟩
  · intro c
    cases h : CanvasToWorkflowSchema c with
    | ok sc => exact Or.inl ⟨sc, rfl⟩
    | error e => exact Or.inr ⟨e, rfl⟩
  · intro c p hp
    simp [CanvasToWorkflowSchema, hp]

theorem C9_compile_recovers_panics_witness :
    CanvasToWorkflowSchema badTargetCanvas =
      .error (.panicWrapped
        "node id nonexistent not existed, but appears in the edge") :=
  C9_compile_recovers_panics.2.1 badTargetCanvas _ rfl

/-- Helper: the block loop of processNode never touches GeneratedNodes. -/
theorem processBlocks_generated (pid : String) :
    ∀ bs acc acc', processBlocks pid bs acc = .ok acc' →
      acc'.GeneratedNodes = acc.GeneratedNodes := by
  intro bs
  induction bs with
  | nil =>
    intro acc acc' h
    simp [processBlocks] at h
    rw [← h]
  | cons sub rest ih =>
    intro acc acc' h
    simp only [processBlocks] at h
    by_cases hb : sub.Blocks.isEmpty
    · by_cases he : sub.Edges.isEmpty
      · simp [hb, he] at h
        split at h
        all_goals
          have hh := ih _ _ h
          exact hh
      · simp [hb, he] at h
    · simp [hb] at h

theorem processBlocks_generated_witness :
    ∃ acc', processBlocks "p" [] ⟨[], [], [], [], []⟩ = .ok acc' ∧
      acc'.GeneratedNodes = [] :=
  ⟨_, rfl, processBlocks_generated "p" [] ⟨[], [], [], [], []⟩ _ rfl⟩

/-- C5: a batch-enabled node whose data declares exactly one output of
list type with object element type is replaced by a Batch parent keeping
the original id, whose single child block is the original node re-keyed
with the "_inner" suffix; the original input parameters move to the inner
node while the parent holds the batch size, concurrent size and the list
inputs; exactly two internal edges parent→inner and inner→parent are
created; the compile loop appends the inner key to generated_nodes; and
with outputs that are not exactly one list-of-object, parseBatchMode
(hence compilation) fails. -/
theorem C5_batch_mode_expansion :
    (∀ (n : Node) (d : Data) (inp : Inputs) (batchInfo : NodeBatch)
      (meta : NodeMetaFE) (out : OutputAny) (v objV : Variable)
      (fields : List Variable),
      n.NData = some d → d.Inputs = some inp →
      inp.NodeBatchInfo = some batchInfo → batchInfo.BatchEnable = true →
      d.Meta = some meta → d.Outputs = [out] →
      ParseVariable out = .ok v → v.VType = VariableType.list →
      v.Schema = .velem objV → objV.VType = VariableType.object →
      objV.Schema = .vfields fields →
      ∃ parent inner,
        parseBatchMode n = .ok (some parent) ∧
        parent.ID = n.ID ∧ parent.NType = NodeTypeBatchIDStr ∧
        parent.Blocks = [inner] ∧
        inner.ID = n.ID ++ "_inner" ∧ inner.NType = n.NType ∧
        (∃ di ii, inner.NData = some di ∧ di.Inputs = some ii ∧
          ii.InputParameters = inp.InputParameters) ∧
        (∃ dp ip bcfg bs cs, parent.NData = some dp ∧ dp.Inputs = some ip ∧
          ip.InputParameters = batchInfo.InputLists ∧
          ip.Batch = some bcfg ∧ bcfg.BatchSize = some bs ∧
          bcfg.ConcurrentSize = some cs ∧
          bs.Value = some (BlockInputValue.mk "literal"
            (some (.litStr (intDecimalStr batchInfo.BatchSize)))) ∧
          cs.Value = some (BlockInputValue.mk "literal"
            (some (.litStr (intDecimalStr batchInfo.ConcurrentSize))))) ∧
        (∃ e1 e2, parent.Edges = [e1, e2] ∧
          e1.SourceNodeID = n.ID ∧ e1.TargetNodeID = n.ID ++ "_inner" ∧
          e2.SourceNodeID = n.ID ++ "_inner" ∧ e2.TargetNodeID = n.ID) ∧
        (∀ acc acc', processNode acc n = .ok acc' →
          acc'.GeneratedNodes = acc.GeneratedNodes ++ [n.ID ++ "_inner"])) ∧
    (∀ (n : Node) (d : Data) (inp : Inputs) (batchInfo : NodeBatch),
      n.NData = some d → d.Inputs = some inp →
      inp.NodeBatchInfo = some batchInfo → batchInfo.BatchEnable = true →
      (d.Outputs.length ≠ 1 → ∃ e, parseBatchMode n = .error e) ∧
      (∀ out v, d.Outputs = [out] → ParseVariable out = .ok v →
        v.VType ≠ VariableType.list → ∃ e, parseBatchMode n = .error e) ∧
      (∀ out v objV, d.Outputs = [out] → ParseVariable out = .ok v →
        v.VType = VariableType.list → parseSchemaVariable v.Schema = .ok objV →
        objV.VType ≠ VariableType.object → ∃ e, parseBatchMode n = .error e)) := by
  constructor
  · intro n d inp batchInfo meta out v objV fields hnd hin hbi hen hmeta hout hpv hvt
      hsch hot hof
    have hmain : parseBatchMode n =
        .ok (some (batchParentNodeOf n inp batchInfo meta v objV fields)) := by
      simp [parseBatchMode, hnd, hin, hbi, hen, hout, hpv, hvt, hsch, hot, hof,
        hmeta, parseSchemaVariable, varSchemaToVariableList]
    refine ⟨_, _, hmain, rfl, rfl, rfl, rfl, rfl,
      ⟨_, _, rfl, rfl, rfl⟩, ⟨_, _, _, _, _, rfl, rfl, rfl, rfl, rfl, rfl, rfl, rfl⟩,
      ⟨_, _, rfl, rfl, rfl, rfl, rfl⟩, ?_⟩
    intro acc acc' hpn
    simp only [processNode] at hpn
    split at hpn
    · simp at hpn
    case _ acc1 hpb =>
      simp only [hmain] at hpn
      split at hpn
      · simp at hpn
      case _ nsh hns =>
        injection hpn with hpn
        subst hpn
        have hg1 := processBlocks_generated n.ID n.Blocks _ _ hpb
        simp [hg1, batchParentNodeOf, firstBlockID, batchInnerNodeOf,
          Node.Blocks, Node.ID]
  · intro n d inp batchInfo hnd hin hbi hen
    refine ⟨?_, ?_, ?_⟩
    · intro hlen
      cases hout : d.Outputs with
      | nil =>
        exact ⟨.conv "node batch mode output should be one list",
          by simp [parseBatchMode, hnd, hin, hbi, hen, hout]⟩
      | cons out rest =>
        cases rest with
        | nil => rw [hout] at hlen; simp at hlen
        | cons o2 r2 =>
          exact ⟨.conv "node batch mode output should be one list",
            by simp [parseBatchMode, hnd, hin, hbi, hen, hout]⟩
    · intro out v hout hpv hvt
      exact ⟨.conv "node batch mode output should be list",
        by simp [parseBatchMode, hnd, hin, hbi, hen, hout, hpv, hvt]⟩
    · intro out v objV hout hpv hvt hps hot
      exact ⟨.conv "node batch mode output element should be object",
        by simp [parseBatchMode, hnd, hin, hbi, hen, hout, hpv, hvt, hps, hot]⟩

theorem C5_batch_mode_expansion_witness :
    ∃ parent inner,
      parseBatchMode batchModeNode = .ok (some parent) ∧
      parent.ID = "7001" ∧ parent.Blocks = [inner] ∧
      inner.ID = "7001_inner" ∧
      (∃ e, parseBatchMode batchModeNodeBadOutputs = .error e) := by
  obtain ⟨parent, inner, h1, h2, -, h4, h5, -⟩ :=
    C5_batch_mode_expansion.1 batchModeNode batchModeData batchModeInputs
      batchModeInfo { Title := "llm" } (.ofVar batchOutputVariable)
      batchOutputVariable batchObjElem [batchAnswerField]
      rfl rfl rfl rfl rfl rfl rfl rfl rfl rfl rfl
  obtain ⟨-, hbad, -⟩ :=
    C5_batch_mode_expansion.2 batchModeNodeBadOutputs
      { Meta := some { Title := "llm" },
        Outputs := [.ofVar (.mk "answer" VariableType.string false "" none .vnone)],
        Inputs := some
          { InputParameters := [{ PName := "query", Input := none }],
            NodeBatchInfo := some
              { BatchEnable := true, BatchSize := 4, ConcurrentSize := 2,
                InputLists := [{ PName := "items", Input := none }] },
            Batch := none, LLMParam := none, LLMCfg := none,
            SettingOnError := none, SubWorkflowCfg := none,
            PluginAPIParam := none } }
      { InputParameters := [{ PName := "query", Input := none }],
        NodeBatchInfo := some
          { BatchEnable := true, BatchSize := 4, ConcurrentSize := 2,
            InputLists := [{ PName := "items", Input := none }] },
        Batch := none, LLMParam := none, LLMCfg := none,
        SettingOnError := none, SubWorkflowCfg := none, PluginAPIParam := none }
      { BatchEnable := true, BatchSize := 4, ConcurrentSize := 2,
        InputLists := [{ PName := "items", Input := none }] }
      rfl rfl rfl rfl
  refine ⟨parent, inner, h1, h2, h4, h5, ?_⟩
  refine hbad (.ofVar (.mk "answer" VariableType.string false "" none .vnone))
    (.mk "answer" VariableType.string false "" none .vnone) rfl rfl ?_
  decide

/-- C10 counterexample: on a canvas whose entry node has no outputs, the
ChatFlow adapter appends a USER_INPUT field that is NOT marked required
(Required = false), and a CONVERSATION_NAME field whose default is the
fixed literal "Default" (the adapter takes no caller-provided default),
refuting the claim at this concrete input. -/
theorem C10_counterexample_user_input_not_required :
    ∃ c2 entry d,
      adaptToChatFlow simpleCanvas = .ok c2 ∧
      findEntryNode c2.Nodes = some entry ∧
      entry.NData = some d ∧
      d.Outputs = [.ofVar userInputVariable, .ofVar conversationNameVariable] ∧
      userInputVariable.Required = false ∧
      conversationNameVariable.DefaultValue = some "Default" :=
  ⟨_, _, _, rfl, rfl, rfl, rfl, rfl, rfl⟩

/-- C10 (amended): switching to ChatFlow makes the adapter ensure the
entry node's outputs contain USER_INPUT (string, NOT marked required) and
CONVERSATION_NAME (string, optional, with the fixed default "Default" —
no caller-provided value); fields already present are left unchanged, any
missing field is appended at the end, and the modified canvas is saved
again via Save. -/
theorem C10_amended_chatflow_adaptation (c : Canvas) (entry : Node) (d : Data)
    (names : List String)
    (hfind : findEntryNode c.Nodes = some entry)
    (hd : entry.NData = some d)
    (hnames : outputNames d.Outputs = .ok names) :
    ∃ c2 outs2,
      adaptToChatFlow c = .ok c2 ∧
      adaptEntryOutputs d.Outputs = .ok outs2 ∧
      c2.Nodes = replaceFirstEntryOutputs c.Nodes outs2 ∧
      c2.Edges = c.Edges ∧
      (names.contains UserInputKey = true →
        names.contains ConversationNameKey = true → outs2 = d.Outputs) ∧
      (names.contains UserInputKey = false →
        names.contains ConversationNameKey = true →
        outs2 = d.Outputs ++ [.ofVar userInputVariable]) ∧
      (names.contains UserInputKey = true →
        names.contains ConversationNameKey = false →
        outs2 = d.Outputs ++ [.ofVar conversationNameVariable]) ∧
      (names.contains UserInputKey = false →
        names.contains ConversationNameKey = false →
        outs2 = d.Outputs ++
          [.ofVar userInputVariable, .ofVar conversationNameVariable]) ∧
      userInputVariable.Name = UserInputKey ∧
      userInputVariable.VType = VariableType.string ∧
      userInputVariable.Required = false ∧
      conversationNameVariable.Name = ConversationNameKey ∧
      conversationNameVariable.VType = VariableType.string ∧
      conversationNameVariable.Required = false ∧
      conversationNameVariable.DefaultValue = some "Default" ∧
      (∀ prev cid, adaptToChatFlowAndSave c prev cid = Save c2 prev cid) := by
  have ha : adaptEntryOutputs d.Outputs = .ok
      (if names.contains ConversationNameKey
       then (if names.contains UserInputKey then d.Outputs
             else d.Outputs ++ [.ofVar userInputVariable])
       else (if names.contains UserInputKey then d.Outputs
             else d.Outputs ++ [.ofVar userInputVariable]) ++
         [.ofVar conversationNameVariable]) := by
    by_cases h1 : names.contains UserInputKey <;>
      by_cases h2 : names.contains ConversationNameKey <;>
        simp [adaptEntryOutputs, hnames, h1, h2]
  have hco : adaptToChatFlow c = .ok
      ⟨replaceFirstEntryOutputs c.Nodes
        (if names.contains ConversationNameKey
         then (if names.contains UserInputKey then d.Outputs
               else d.Outputs ++ [.ofVar userInputVariable])
         else (if names.contains UserInputKey then d.Outputs
               else d.Outputs ++ [.ofVar userInputVariable]) ++
           [.ofVar conversationNameVariable]), c.Edges⟩ := by
    simp [adaptToChatFlow, hfind, hd, ha]
  refine ⟨_, _, hco, ha, rfl, rfl, ?_, ?_, ?_, ?_,
    rfl, rfl, rfl, rfl, rfl, rfl, rfl, ?_⟩
  · intro h1 h2; simp only [h1, h2]; simp
  · intro h1 h2; simp only [h1, h2]; simp
  · intro h1 h2; simp only [h1, h2]; simp
  · intro h1 h2; simp only [h1, h2]; simp
  · intro prev cid
    simp [adaptToChatFlowAndSave, hco]

theorem C10_amended_chatflow_adaptation_witness :
    ∃ c2, adaptToChatFlow simpleCanvas = .ok c2 ∧
      c2.Nodes = replaceFirstEntryOutputs simpleCanvas.Nodes
        [.ofVar userInputVariable, .ofVar conversationNameVariable] := by
  obtain ⟨c2, outs2, h1, -, h3, -, -, -, -, hff, -, -, -, -, -, -, -, -⟩ :=
    C10_amended_chatflow_adaptation simpleCanvas entryNode
      { Meta := some { Title := "Start" }, Outputs := [], Inputs := some emptyInputs }
      [] rfl rfl rfl
  have houts : outs2 = [.ofVar userInputVariable, .ofVar conversationNameVariable] := by
    simpa using hff rfl rfl
  exact ⟨c2, h1, by rw [h3, houts]⟩

/-- Helper: a string of length zero is the empty string. -/
theorem str_len_zero (s : String) (h : s.length = 0) : s = "" := by
  by_contra hne
  have := (str_ne_empty_iff s).mp hne
  omega

/-- C6 counterexample: for a connection leaving a selector on port
true_N with the decimal integer N = 2^63 (out of the 64-bit signed
range), normalization errors instead of producing branch_N. -/
theorem C6_counterexample_int64_overflow :
    normalizePorts
        [⟨"sel", "x", some ("true_" ++ intDecimalStr (2 ^ 63))⟩] selNodeMap =
      .error "invalid port name: true_9223372036854775808" ∧
    ("true_" ++ intDecimalStr (2 ^ 63) : String) = "true_9223372036854775808" :=
  ⟨rfl, rfl⟩

/-- C6 (amended): port normalization maps a connection's source port as
follows — a nil or empty port becomes nil; the four loop/batch inline
ports become nil; for connections leaving a Selector node, "true" becomes
"branch_0", "false" becomes "default", "true_"++s becomes "branch_"++N
when s parses (per strconv.Atoi) to the 64-bit integer N, and errors when
s does not so parse (non-numeric or out of range); ports of non-selector
nodes are kept unchanged. -/
theorem C6_amended_port_normalization (nm : List (String × Node)) (c : Connection) :
    (c.FromPort = none → normalizePorts [c] nm = .ok [c]) ∧
    (c.FromPort = some "" →
      normalizePorts [c] nm = .ok [{ c with FromPort := none }]) ∧
    (∀ p, c.FromPort = some p →
      (p = "loop-function-inline-output" ∨ p = "loop-output" ∨
       p = "batch-function-inline-output" ∨ p = "batch-output") →
      normalizePorts [c] nm = .ok [{ c with FromPort := none }]) ∧
    (∀ node, lookupAssoc nm c.FromNode = some node →
      node.NType = NodeTypeSelectorIDStr →
      (c.FromPort = some "true" →
        normalizePorts [c] nm = .ok [⟨c.FromNode, c.ToNode, some "branch_0"⟩]) ∧
      (c.FromPort = some "false" →
        normalizePorts [c] nm = .ok [⟨c.FromNode, c.ToNode, some "default"⟩]) ∧
      (∀ p k, c.FromPort = some p → strStartsWith p "true_" = true →
        goAtoi (strDrop p 5) = some k →
        normalizePorts [c] nm =
          .ok [⟨c.FromNode, c.ToNode, some ("branch_" ++ intDecimalStr k)⟩]) ∧
      (∀ p, c.FromPort = some p → strStartsWith p "true_" = true →
        goAtoi (strDrop p 5) = none →
        normalizePorts [c] nm = .error ("invalid port name: " ++ p))) ∧
    (∀ node p, lookupAssoc nm c.FromNode = some node →
      node.NType ≠ NodeTypeSelectorIDStr →
      c.FromPort = some p → p ≠ "" →
      p ≠ "loop-function-inline-output" → p ≠ "loop-output" →
      p ≠ "batch-function-inline-output" → p ≠ "batch-output" →
      normalizePorts [c] nm = .ok [⟨c.FromNode, c.ToNode, some p⟩]) := by
  refine ⟨?_, ?_, ?_, ?_, ?_⟩
  · intro hp
    simp [normalizePorts, hp]
  · intro hp
    simp [normalizePorts, hp]
  · intro p hp hcases
    rcases hcases with rfl | rfl | rfl | rfl <;> simp +decide [normalizePorts, hp]
  · intro node hnode hsel
    refine ⟨?_, ?_, ?_, ?_⟩
    · intro hp
      simp +decide [normalizePorts, hp, hnode, hsel, branchPort]
    · intro hp
      simp +decide [normalizePorts, hp, hnode, hsel, PortDefault]
    · intro p k hp hsw hk
      have hne : ¬ p.length = 0 := by
        intro h0
        rw [str_len_zero p h0] at hsw
        exact absurd hsw (by decide)
      have hni : ¬ (p = "loop-function-inline-output" ∨ p = "loop-output" ∨
          p = "batch-function-inline-output" ∨ p = "batch-output") := by
        rintro (rfl | rfl | rfl | rfl) <;> exact absurd hsw (by decide)
      have hnt : ¬ p = "true" := by rintro rfl; exact absurd hsw (by decide)
      have hnf : ¬ p = "false" := by rintro rfl; exact absurd hsw (by decide)
      simp [normalizePorts, hp, hne, hni, hnode, hsel, hnt, hnf, hsw, hk, branchPort]
    · intro p hp hsw hk
      have hne : ¬ p.length = 0 := by
        intro h0
        rw [str_len_zero p h0] at hsw
        exact absurd hsw (by decide)
      have hni : ¬ (p = "loop-function-inline-output" ∨ p = "loop-output" ∨
          p = "batch-function-inline-output" ∨ p = "batch-output") := by
        rintro (rfl | rfl | rfl | rfl) <;> exact absurd hsw (by decide)
      have hnt : ¬ p = "true" := by rintro rfl; exact absurd hsw (by decide)
      have hnf : ¬ p = "false" := by rintro rfl; exact absurd hsw (by decide)
      simp [normalizePorts, hp, hne, hni, hnode, hsel, hnt, hnf, hsw, hk]
  · intro node p hnode hsel hp hne0 hn1 hn2 hn3 hn4
    have hne : ¬ p.length = 0 := fun h0 => hne0 (str_len_zero p h0)
    have hni : ¬ (p = "loop-function-inline-output" ∨ p = "loop-output" ∨
        p = "batch-function-inline-output" ∨ p = "batch-output") := by
      rintro (rfl | rfl | rfl | rfl) <;> simp_all
    simp [normalizePorts, hp, hne, hni, hnode, hsel]

theorem C6_amended_port_normalization_witness :
    normalizePorts [⟨"sel", "x", some "true"⟩] selNodeMap =
      .ok [⟨"sel", "x", some "branch_0"⟩] ∧
    normalizePorts [⟨"sel", "x", some "true_2"⟩] selNodeMap =
      .ok [⟨"sel", "x", some "branch_2"⟩] ∧
    normalizePorts [⟨"sel", "x", some "false"⟩] selNodeMap =
      .ok [⟨"sel", "x", some "default"⟩] ∧
    normalizePorts [⟨"llm1", "x", some "p9"⟩] selNodeMap =
      .ok [⟨"llm1", "x", some "p9"⟩] ∧
    normalizePorts [⟨"sel", "x", some "true_zz"⟩] selNodeMap =
      .error "invalid port name: true_zz" :=
  ⟨((C6_amended_port_normalization selNodeMap ⟨"sel", "x", some "true"⟩).2.2.2.1
      selectorNode rfl rfl).1 rfl,
   ((C6_amended_port_normalization selNodeMap ⟨"sel", "x", some "true_2"⟩).2.2.2.1
      selectorNode rfl rfl).2.2.1 "true_2" 2 rfl rfl rfl,
   ((C6_amended_port_normalization selNodeMap ⟨"sel", "x", some "false"⟩).2.2.2.1
      selectorNode rfl rfl).2.1 rfl,
   (C6_amended_port_normalization selNodeMap ⟨"llm1", "x", some "p9"⟩).2.2.2.2
      plainLLMNode "p9" rfl (by decide) rfl (by decide) (by decide) (by decide)
      (by decide) (by decide),
   ((C6_amended_port_normalization selNodeMap ⟨"sel", "x", some "true_zz"⟩).2.2.2.1
      selectorNode rfl rfl).2.2.2 "true_zz" rfl rfl rfl⟩

/-- C2: for every Save that stores a draft, when the new canvas compiles,
a previous draft exists, the previous draft's canvas compiles, and the
two compiled schemas are execution-equivalent, the stored test_run_success
equals the previous draft's flag; in every other case it is stored as
false. -/
theorem C2_save_test_run_inheritance (c : Canvas) (prev : DraftLookup)
    (cid : Int) (st : DraftInfo) (hsave : Save c prev cid = .ok st) :
    (∀ sc d psc, CanvasToWorkflowSchema c = .ok sc → prev = .found d →
      CanvasToWorkflowSchema d.DraftCanvas = .ok psc →
      psc.IsEqual sc = true → st.TestRunSuccess = d.TestRunSuccess) ∧
    ((¬ ∃ sc d psc, CanvasToWorkflowSchema c = .ok sc ∧ prev = .found d ∧
        CanvasToWorkflowSchema d.DraftCanvas = .ok psc ∧
        psc.IsEqual sc = true) →
      st.TestRunSuccess = false) := by
  constructor
  · intro sc d psc hc hprev hpc heq
    subst hprev
    simp only [Save, calculateTestRunSuccess, hc, hpc, heq] at hsave
    simp at hsave
    rw [← hsave]
  · intro hno
    cases hc : CanvasToWorkflowSchema c with
    | error e =>
      simp only [Save, calculateTestRunSuccess, hc] at hsave
      simp at hsave
      rw [← hsave]
    | ok sc =>
      cases prev with
      | notFound =>
        simp only [Save, calculateTestRunSuccess, hc] at hsave
        simp at hsave
        rw [← hsave]
      | dbError m =>
        simp only [Save, calculateTestRunSuccess, hc] at hsave
        simp at hsave
      | found d =>
        cases hpc : CanvasToWorkflowSchema d.DraftCanvas with
        | error e =>
          simp only [Save, calculateTestRunSuccess, hc, hpc] at hsave
          simp at hsave
          rw [← hsave]
        | ok psc =>
          cases hiq : psc.IsEqual sc with
          | false =>
            simp only [Save, calculateTestRunSuccess, hc, hpc, hiq] at hsave
            simp at hsave
            rw [← hsave]
          | true => exact absurd ⟨sc, d, psc, hc, rfl, hpc, hiq⟩ hno

theorem C2_save_test_run_inheritance_witness :
    ∃ st, Save simpleCanvas
        (.found { DraftCanvas := simpleCanvas, TestRunSuccess := true,
                  Modified := false, CommitID := "1" }) 2 = .ok st ∧
      st.TestRunSuccess = true := by
  refine ⟨_, rfl, ?_⟩
  exact (C2_save_test_run_inheritance simpleCanvas
    (.found { DraftCanvas := simpleCanvas, TestRunSuccess := true,
              Modified := false, CommitID := "1" }) 2 _ rfl).1
    _ { DraftCanvas := simpleCanvas, TestRunSuccess := true,
        Modified := false, CommitID := "1" } _ rfl rfl rfl rfl

/-! ### Association-list lemmas feeding the schema-equality claim -/

/-- Looking up after an insert-or-replace: the updated key yields the new
value, every other key is unaffected. -/
theorem lookupAssoc_updateAssoc {α : Type} (m : List (String × α))
    (k k' : String) (v : α) :
    lookupAssoc (updateAssoc m k v) k' =
      if k = k' then some v else lookupAssoc m k' := by
  induction m with
  | nil => simp [updateAssoc, lookupAssoc]
  | cons kv rest ih =>
    obtain ⟨k0, v0⟩ := kv
    by_cases h : k0 = k
    · subst h
      by_cases h2 : k0 = k' <;> simp [updateAssoc, lookupAssoc, h2]
    · by_cases h2 : k0 = k'
      · subst h2
        simp [updateAssoc, lookupAssoc, h, Ne.symm h]
      · simp [updateAssoc, lookupAssoc, h, h2, ih]

/-- Insert-or-replace leaves the key list unchanged when the key is
present and appends it otherwise. -/
theorem keysOfAssoc_updateAssoc {α : Type} (m : List (String × α))
    (k : String) (v : α) :
    keysOfAssoc (updateAssoc m k v) =
      if k ∈ keysOfAssoc m then keysOfAssoc m else keysOfAssoc m ++ [k] := by
  induction m with
  | nil => simp [updateAssoc, keysOfAssoc]
  | cons kv rest ih =>
    obtain ⟨k0, v0⟩ := kv
    by_cases h : k0 = k
    · subst h
      simp [updateAssoc, keysOfAssoc]
    · simp only [updateAssoc, if_neg h, keysOfAssoc, List.map_cons]
      have hthis := ih
      simp only [keysOfAssoc] at hthis
      have hcond : (k ∈ k0 :: List.map Prod.fst rest) ↔
          (k ∈ List.map Prod.fst rest) := by
        simp [Ne.symm h]
      by_cases h2 : k ∈ List.map Prod.fst rest
      · rw [if_pos (hcond.mpr h2), hthis, if_pos h2]
      · rw [if_neg (fun hx => h2 (hcond.mp hx)), hthis, if_neg h2]
        exact rfl

/-- Insert-or-replace preserves distinctness of the keys. -/
theorem nodup_keysOfAssoc_updateAssoc {α : Type} (m : List (String × α))
    (k : String) (v : α) (h : (keysOfAssoc m).Nodup) :
    (keysOfAssoc (updateAssoc m k v)).Nodup := by
  rw [keysOfAssoc_updateAssoc]
  by_cases h2 : k ∈ keysOfAssoc m
  · simp [h2, h]
  · rw [if_neg h2]
    refine h.append (List.nodup_singleton k) ?_
    intro a ha hak
    simp at hak
    exact h2 (hak ▸ ha)

/-- A key outside the key list looks up to none. -/
theorem lookupAssoc_eq_none {α : Type} (m : List (String × α)) (k : String) :
    lookupAssoc m k = none ↔ k ∉ keysOfAssoc m := by
  induction m with
  | nil => simp [lookupAssoc, keysOfAssoc]
  | cons kv rest ih =>
    obtain ⟨k0, v0⟩ := kv
    by_cases h : k0 = k
    · subst h
      simp [lookupAssoc, keysOfAssoc]
    · simp [lookupAssoc, keysOfAssoc, h, ih, Ne.symm h]

/-- A successful lookup puts the key among the keys. -/
theorem mem_keysOfAssoc_of_lookup {α : Type} {m : List (String × α)}
    {k : String} {v : α} (h : lookupAssoc m k = some v) :
    k ∈ keysOfAssoc m := by
  by_contra hk
  rw [(lookupAssoc_eq_none m k).mpr hk] at h
  exact Option.noConfusion h

/-- A successful lookup exhibits a member pair. -/
theorem mem_of_lookupAssoc {α : Type} {m : List (String × α)} {k : String}
    {v : α} (h : lookupAssoc m k = some v) : (k, v) ∈ m := by
  induction m with
  | nil => simp [lookupAssoc] at h
  | cons kv rest ih =>
    obtain ⟨k0, v0⟩ := kv
    by_cases h0 : k0 = k
    · subst h0
      simp [lookupAssoc] at h
      simp [h]
    · simp [lookupAssoc, h0] at h
      simp [ih h]

/-- With distinct keys, membership of a pair determines the lookup. -/
theorem lookupAssoc_of_mem {α : Type} {m : List (String × α)} {k : String}
    {v : α} (hnd : (keysOfAssoc m).Nodup) (h : (k, v) ∈ m) :
    lookupAssoc m k = some v := by
  induction m with
  | nil => simp at h
  | cons kv rest ih =>
    obtain ⟨k0, v0⟩ := kv
    obtain ⟨hk0, hndr⟩ := List.nodup_cons.mp hnd
    rcases List.mem_cons.mp h with heq | hrest
    · have h1 : k = k0 := congrArg Prod.fst heq
      have h2 : v = v0 := congrArg Prod.snd heq
      simp [lookupAssoc, h1, h2]
    · have hk : k ∈ keysOfAssoc rest :=
        List.mem_map_of_mem Prod.fst hrest
      have h0 : k0 ≠ k := fun hc => hk0 (hc ▸ hk)
      simp only [lookupAssoc, if_neg h0]
      exact ih hndr hrest

/-- Two duplicate-free lists with one inclusion and equal lengths have the
same members. -/
theorem nodup_subset_length_eq_mem {α : Type} [DecidableEq α]
    {l1 l2 : List α} (h1 : l1.Nodup) (h2 : l2.Nodup)
    (hsub : ∀ x ∈ l1, x ∈ l2) (hlen : l1.length = l2.length) :
    ∀ x, x ∈ l1 ↔ x ∈ l2 := by
  have hfs : l1.toFinset ⊆ l2.toFinset := by
    intro x hx
    rw [List.mem_toFinset] at hx ⊢
    exact hsub x hx
  have hcard : l2.toFinset.card ≤ l1.toFinset.card := by
    rw [List.toFinset_card_of_nodup h1, List.toFinset_card_of_nodup h2, hlen]
  have heq : l1.toFinset = l2.toFinset :=
    Finset.eq_of_subset_of_card_le hfs hcard
  intro x
  rw [← List.mem_toFinset, ← List.mem_toFinset, heq]

/-- Two duplicate-free lists with the same members have equal lengths. -/
theorem nodup_mem_iff_length_eq {α : Type} [DecidableEq α]
    {l1 l2 : List α} (h1 : l1.Nodup) (h2 : l2.Nodup)
    (hmem : ∀ x, x ∈ l1 ↔ x ∈ l2) : l1.length = l2.length := by
  have heq : l1.toFinset = l2.toFinset := by
    apply Finset.ext
    intro x
    rw [List.mem_toFinset, List.mem_toFinset]
    exact hmem x
  calc l1.length = l1.toFinset.card := (List.toFinset_card_of_nodup h1).symm
    _ = l2.toFinset.card := by rw [heq]
    _ = l2.length := List.toFinset_card_of_nodup h2

/-- Generalized-accumulator membership for the connection-id set builder. -/
theorem mem_buildKeySet_aux (cs : List Connection) :
    ∀ (acc : List String) (x : String),
      x ∈ cs.foldl
          (fun ks c => if ks.contains c.ID then ks else ks ++ [c.ID]) acc ↔
        x ∈ acc ∨ x ∈ cs.map Connection.ID := by
  induction cs with
  | nil => simp
  | cons c rest ih =>
    intro acc x
    rw [List.foldl_cons, ih]
    by_cases hc : acc.contains c.ID
    · rw [if_pos hc]
      simp at hc
      constructor
      · rintro (hx | hx)
        · exact Or.inl hx
        · simp [hx]
      · rintro (hx | hx)
        · exact Or.inl hx
        · simp at hx
          rcases hx with hx | hx
          · exact Or.inl (hx ▸ hc)
          · simp [hx]
    · rw [if_neg hc]
      simp [or_assoc]

/-- Membership in the built key set is membership among the connection ids. -/
theorem mem_buildKeySet (cs : List Connection) (x : String) :
    x ∈ buildKeySet cs ↔ x ∈ cs.map Connection.ID := by
  rw [buildKeySet, mem_buildKeySet_aux]
  simp

/-- The key-set builder never records a duplicate. -/
theorem nodup_buildKeySet_aux (cs : List Connection) :
    ∀ acc : List String, acc.Nodup →
      (cs.foldl
        (fun ks c => if ks.contains c.ID then ks else ks ++ [c.ID]) acc).Nodup := by
  induction cs with
  | nil => intro acc h; simpa using h
  | cons c rest ih =>
    intro acc h
    rw [List.foldl_cons]
    by_cases hc : acc.contains c.ID
    · rw [if_pos hc]
      exact ih acc h
    · rw [if_neg hc]
      refine ih _ (h.append (List.nodup_singleton c.ID) ?_)
      intro a ha hak
      simp at hak hc
      exact hc (hak ▸ ha)

theorem nodup_buildKeySet (cs : List Connection) : (buildKeySet cs).Nodup :=
  nodup_buildKeySet_aux cs [] List.nodup_nil

/-- The node-map builder keeps keys duplicate-free. -/
theorem nodup_buildNodeMap_aux (ns : List NodeSchema) :
    ∀ m0 : List (NodeKey × NodeSchema), (keysOfAssoc m0).Nodup →
      (keysOfAssoc (ns.foldl (fun m n => updateAssoc m n.Key n) m0)).Nodup := by
  induction ns with
  | nil => intro m0 h; simpa using h
  | cons n rest ih =>
    intro m0 h
    rw [List.foldl_cons]
    exact ih _ (nodup_keysOfAssoc_updateAssoc m0 n.Key n h)

theorem nodup_buildNodeMap (ns : List NodeSchema) :
    (keysOfAssoc (buildNodeMap ns)).Nodup :=
  nodup_buildNodeMap_aux ns [] List.nodup_nil

/-- maps.Equal on key sets, characterized on duplicate-free lists as plain
set equality of the members. -/
theorem mapsEqualKeys_iff (m1 m2 : List String)
    (h1 : m1.Nodup) (h2 : m2.Nodup) :
    mapsEqualKeys m1 m2 = true ↔ ∀ s, s ∈ m1 ↔ s ∈ m2 := by
  rw [mapsEqualKeys]
  simp only [Bool.and_eq_true, beq_iff_eq, List.all_eq_true, List.elem_iff]
  constructor
  · rintro ⟨hlen, hsub⟩
    exact nodup_subset_length_eq_mem h1 h2 hsub hlen
  · intro hmem
    exact ⟨nodup_mem_iff_length_eq h1 h2 hmem, fun s hs => (hmem s).mp hs⟩

/-- The IsEqual per-node comparator agrees with the spec's node-agreement
predicate (arguments flipped, matching how IsEqual passes the other
schema's map first). -/
theorem nodeFieldsEq_iff (x y : NodeSchema) :
    nodeFieldsEq x y = true ↔ SpecNodesAgree y x := by
  unfold nodeFieldsEq SpecNodesAgree
  simp only [ne_eq, ite_not]
  constructor
  · intro h
    split_ifs at h with h1 h2 h3 h4 h5 h6 h7 h8
    exact ⟨h1.symm, h2.symm, h3.symm, h4.symm, h5.symm, h6.symm,
      h7.symm, h8.symm⟩
  · rintro ⟨e1, e2, e3, e4, e5, e6, e7, e8⟩
    simp [e1, e2, e3, e4, e5, e6, e7, e8]

/-- maps.EqualFunc on node maps with duplicate-free keys, characterized as
a pointwise match on lookups. -/
theorem mapsEqualFunc_iff (m1 m2 : List (NodeKey × NodeSchema))
    (h1 : (keysOfAssoc m1).Nodup) (h2 : (keysOfAssoc m2).Nodup) :
    mapsEqualFunc m1 m2 = true ↔
      ∀ k, match lookupAssoc m1 k, lookupAssoc m2 k with
        | some v1, some v2 => nodeFieldsEq v1 v2 = true
        | none, none => True
        | _, _ => False := by
  rw [mapsEqualFunc]
  simp only [Bool.and_eq_true, beq_iff_eq, List.all_eq_true]
  constructor
  · rintro ⟨hlen, hall⟩ k
    have hsub : ∀ j ∈ keysOfAssoc m1, j ∈ keysOfAssoc m2 := by
      intro j hj
      obtain ⟨ab, hab, hj'⟩ := List.mem_map.mp hj
      have hm := hall ab hab
      cases hlk : lookupAssoc m2 ab.1 with
      | none => rw [hlk] at hm; simp at hm
      | some v2 =>
        subst hj'
        exact mem_keysOfAssoc_of_lookup hlk
    have hmemkeys : ∀ j, j ∈ keysOfAssoc m1 ↔ j ∈ keysOfAssoc m2 :=
      nodup_subset_length_eq_mem h1 h2 hsub
        (by simpa [keysOfAssoc] using hlen)
    cases hlk1 : lookupAssoc m1 k with
    | some v1 =>
      have hm := hall (k, v1) (mem_of_lookupAssoc hlk1)
      cases hlk2 : lookupAssoc m2 k with
      | none =>
        rw [show lookupAssoc m2 (k, v1).1 = none from hlk2] at hm
        simp at hm
      | some v2 =>
        rw [show lookupAssoc m2 (k, v1).1 = some v2 from hlk2] at hm
        exact hm
    | none =>
      have hk1 : k ∉ keysOfAssoc m1 := (lookupAssoc_eq_none m1 k).mp hlk1
      have hk2 : k ∉ keysOfAssoc m2 := fun hx => hk1 ((hmemkeys k).mpr hx)
      rw [(lookupAssoc_eq_none m2 k).mpr hk2]
      trivial
  · intro hpt
    have hmemkeys : ∀ j, j ∈ keysOfAssoc m1 ↔ j ∈ keysOfAssoc m2 := by
      intro j
      constructor
      · intro hj
        obtain ⟨ab, hab, hj'⟩ := List.mem_map.mp hj
        subst hj'
        have hl1 : lookupAssoc m1 ab.1 = some ab.2 := lookupAssoc_of_mem h1 hab
        have hm := hpt ab.1
        rw [hl1] at hm
        cases hlk2 : lookupAssoc m2 ab.1 with
        | none => rw [hlk2] at hm; exact hm.elim
        | some v2 => exact mem_keysOfAssoc_of_lookup hlk2
      · intro hj
        obtain ⟨ab, hab, hj'⟩ := List.mem_map.mp hj
        subst hj'
        have hl2 : lookupAssoc m2 ab.1 = some ab.2 := lookupAssoc_of_mem h2 hab
        have hm := hpt ab.1
        rw [hl2] at hm
        cases hlk1 : lookupAssoc m1 ab.1 with
        | none => rw [hlk1] at hm; exact hm.elim
        | some v1 => exact mem_keysOfAssoc_of_lookup hlk1
    refine ⟨by simpa [keysOfAssoc] using nodup_mem_iff_length_eq h1 h2 hmemkeys, ?_⟩
    intro kv hkv
    have hl1 : lookupAssoc m1 kv.1 = some kv.2 := lookupAssoc_of_mem h1 hkv
    have hm := hpt kv.1
    rw [hl1] at hm
    cases hlk2 : lookupAssoc m2 kv.1 with
    | none => rw [hlk2] at hm; exact hm.elim
    | some v2 =>
      rw [hlk2] at hm
      exact hm

/-- C1: WorkflowSchema.IsEqual decides the spec's execution equivalence.
For any two compiled schemas, IsEqual returns true iff the sets of
connection ids are equal and the node maps keyed by node key agree
node-by-node on Name, Configs, InputTypes, InputSources, OutputTypes,
OutputSources, ExceptionConfigs and SubWorkflowBasic; no other field of
the schemas (stream configs, the embedded sub-workflow schema, hierarchy,
branches, generated nodes) occurs in the equivalence. -/
theorem C1_isEqual_iff_execution_equivalent (a b : WorkflowSchema) :
    a.IsEqual b = true ↔ SpecExecutionEquivalent a b := by
  have hsplit : a.IsEqual b = true ↔
      (mapsEqualKeys (buildKeySet b.Connections) (buildKeySet a.Connections) = true ∧
        mapsEqualFunc (buildNodeMap b.Nodes) (buildNodeMap a.Nodes) = true) := by
    rw [WorkflowSchema.IsEqual]
    by_cases hk :
        mapsEqualKeys (buildKeySet b.Connections) (buildKeySet a.Connections) = true
    · simp [hk]
    · simp [hk]
  rw [hsplit, SpecExecutionEquivalent]
  constructor
  · rintro ⟨hk, hn⟩
    constructor
    · intro s
      have hmem := (mapsEqualKeys_iff _ _ (nodup_buildKeySet _)
        (nodup_buildKeySet _)).mp hk s
      rw [mem_buildKeySet, mem_buildKeySet] at hmem
      exact hmem.symm
    · intro k
      have hmatch := (mapsEqualFunc_iff _ _ (nodup_buildNodeMap _)
        (nodup_buildNodeMap _)).mp hn k
      cases hla : lookupAssoc (buildNodeMap a.Nodes) k with
      | some na =>
        cases hlb : lookupAssoc (buildNodeMap b.Nodes) k with
        | some nb =>
          rw [hla, hlb] at hmatch
          exact (nodeFieldsEq_iff nb na).mp hmatch
        | none =>
          rw [hla, hlb] at hmatch
          exact hmatch.elim
      | none =>
        cases hlb : lookupAssoc (buildNodeMap b.Nodes) k with
        | some nb =>
          rw [hla, hlb] at hmatch
          exact hmatch.elim
        | none => trivial
  · rintro ⟨hc, hn⟩
    refine ⟨(mapsEqualKeys_iff _ _ (nodup_buildKeySet _)
        (nodup_buildKeySet _)).mpr ?_,
      (mapsEqualFunc_iff _ _ (nodup_buildNodeMap _)
        (nodup_buildNodeMap _)).mpr ?_⟩
    · intro s
      rw [mem_buildKeySet, mem_buildKeySet]
      exact (hc s).symm
    · intro k
      have hmatch := hn k
      cases hla : lookupAssoc (buildNodeMap a.Nodes) k with
      | some na =>
        cases hlb : lookupAssoc (buildNodeMap b.Nodes) k with
        | some nb =>
          rw [hla, hlb] at hmatch
          exact (nodeFieldsEq_iff nb na).mpr hmatch
        | none =>
          rw [hla, hlb] at hmatch
          exact hmatch.elim
      | none =>
        cases hlb : lookupAssoc (buildNodeMap b.Nodes) k with
        | some nb =>
          rw [hla, hlb] at hmatch
          exact hmatch.elim
        | none => trivial

/-! ### BFS lemmas feeding the streaming-requirement claim -/

/-- Extending a reachability path by one edge at the end. -/
theorem Reach.snoc {E : List (NodeKey × NodeKey)} {a b c : NodeKey}
    (h : Reach E a b) (h2 : (b, c) ∈ E) : Reach E a c := by
  induction h with
  | refl a => exact Reach.step h2 (Reach.refl c)
  | step hedge _ ihh => exact Reach.step hedge (ihh h2)

/-- Neighbour-list membership is edge membership. -/
theorem mem_neighborsOf (E : List (NodeKey × NodeKey)) (k b : NodeKey) :
    b ∈ neighborsOf E k ↔ (k, b) ∈ E := by
  simp only [neighborsOf, List.mem_map, List.mem_filter, beq_iff_eq]
  constructor
  · rintro ⟨⟨a, b'⟩, ⟨hmem, rfl⟩, rfl⟩
    exact hmem
  · intro h
    exact ⟨(k, b), ⟨h, rfl⟩, rfl⟩

/-- The enqueue step appends one block of fresh keys to both the queue and
the visited list: the block comes from the neighbour list, keeps the
visited list duplicate-free, and afterwards every neighbour is visited. -/
theorem enqueueNew_spec (nbrs : List NodeKey) :
    ∀ q v : List NodeKey, ∃ L,
      (enqueueNew nbrs q v).1 = q ++ L ∧ (enqueueNew nbrs q v).2 = v ++ L ∧
      (∀ x ∈ L, x ∈ nbrs) ∧ (v.Nodup → (v ++ L).Nodup) ∧
      (∀ x ∈ nbrs, x ∈ v ++ L) := by
  induction nbrs with
  | nil =>
    intro q v
    exact ⟨[], by simp [enqueueNew], by simp [enqueueNew], by simp,
      fun h => by simpa using h, by simp⟩
  | cons nb rest ih =>
    intro q v
    by_cases hnb : nb ∈ v
    · have hstep : enqueueNew (nb :: rest) q v = enqueueNew rest q v := by
        simp [enqueueNew, hnb]
      obtain ⟨L, h1, h2, h3, h4, h5⟩ := ih q v
      rw [hstep]
      refine ⟨L, h1, h2, fun x hx => List.mem_cons_of_mem nb (h3 x hx), h4, ?_⟩
      intro x hx
      rcases List.mem_cons.mp hx with rfl | hx
      · exact List.mem_append_left L hnb
      · exact h5 x hx
    · have hstep : enqueueNew (nb :: rest) q v =
          enqueueNew rest (q ++ [nb]) (v ++ [nb]) := by
        simp [enqueueNew, hnb]
      obtain ⟨L', h1, h2, h3, h4, h5⟩ := ih (q ++ [nb]) (v ++ [nb])
      rw [hstep]
      refine ⟨nb :: L', ?_, ?_, ?_, ?_, ?_⟩
      · rw [h1, List.append_assoc]
        rfl
      · rw [h2, List.append_assoc]
        rfl
      · intro x hx
        rcases List.mem_cons.mp hx with rfl | hx
        · exact List.mem_cons_self _ _
        · exact List.mem_cons_of_mem _ (h3 x hx)
      · intro hv
        have hnd1 : (v ++ [nb]).Nodup := by
          refine hv.append (List.nodup_singleton nb) ?_
          intro a ha hab
          simp at hab
          exact hnb (hab ▸ ha)
        have h6 := h4 hnd1
        rwa [List.append_assoc] at h6
      · intro x hx
        rcases List.mem_cons.mp hx with rfl | hx
        · exact List.mem_append_right v (List.mem_cons_self _ _)
        · have h7 := h5 x hx
          rwa [List.append_assoc] at h7

/-- Avoid-set antitonicity: a path avoiding a larger set avoids a smaller
one. -/
theorem reachAvoid_anti {E : List (NodeKey × NodeKey)}
    {V V' : List NodeKey} {a c : NodeKey}
    (hsub : ∀ x ∈ V, x ∈ V') (h : ReachAvoid E V' a c) :
    ReachAvoid E V a c := by
  induction h with
  | refl a => exact ReachAvoid.refl a
  | step hedge hbv _ ihh => exact ReachAvoid.step hedge (fun hx => hbv (hsub _ hx)) ihh

/-- Path repair after growing the avoid set: either the path still avoids
the new set, or it first enters the newly avoided region at a key of Q. -/
theorem reachAvoid_repair {E : List (NodeKey × NodeKey)}
    {V V' Q : List NodeKey} {b c : NodeKey}
    (h : ReachAvoid E V b c) (hVV : ∀ x ∈ V, x ∈ V')
    (hnew : ∀ x, x ∉ V → x ∈ V' → x ∈ Q) :
    (∃ s ∈ Q, ReachAvoid E V' s c) ∨ ReachAvoid E V' b c := by
  induction h with
  | refl a => exact Or.inr (ReachAvoid.refl a)
  | step hedge hbv _ ihh =>
    rcases ihh with hL | hR
    · exact Or.inl hL
    · rename_i b' _ _
      by_cases hbV' : b' ∈ V'
      · exact Or.inl ⟨b', hnew b' hbv hbV', hR⟩
      · exact Or.inr (ReachAvoid.step hedge hbV' hR)

/-- Every plain reachability from a point of V yields an avoid-set path
from some point of V. -/
theorem reach_exists_avoid {E : List (NodeKey × NodeKey)} {a c : NodeKey}
    (h : Reach E a c) :
    ∀ V : List NodeKey, a ∈ V → ∃ s ∈ V, ReachAvoid E V s c := by
  induction h with
  | refl a =>
    intro V haV
    exact ⟨a, haV, ReachAvoid.refl a⟩
  | @step a b c hedge _ ihh =>
    intro V haV
    by_cases hbV : b ∈ V
    · exact ihh V hbV
    · obtain ⟨s, hsV, hra⟩ := ihh (b :: V) (List.mem_cons_self b V)
      rcases List.mem_cons.mp hsV with hsb | hsV'
      · subst hsb
        refine ⟨a, haV, ReachAvoid.step hedge hbV
          (reachAvoid_anti ?_ hra)⟩
        exact fun x hx => List.mem_cons_of_mem _ hx
      · exact ⟨s, hsV',
          reachAvoid_anti (fun x hx => List.mem_cons_of_mem b hx) hra⟩

/-- A duplicate-free list included in another list is no longer than it. -/
theorem nodup_subset_length_le {α : Type} [DecidableEq α]
    {l1 l2 : List α} (h1 : l1.Nodup) (hsub : ∀ x ∈ l1, x ∈ l2) :
    l1.length ≤ l2.length := by
  calc l1.length = l1.toFinset.card := (List.toFinset_card_of_nodup h1).symm
    _ ≤ l2.toFinset.card := by
        refine Finset.card_le_card ?_
        intro x hx
        rw [List.mem_toFinset] at hx ⊢
        exact hsub x hx
    _ ≤ l2.length := l2.toFinset_card_le

/-- BFS soundness: a true answer exhibits a consumer reachable from the
start, provided everything queued is reachable from the start. -/
theorem bfsReach_sound (cons : NodeKey → Bool) (E : List (NodeKey × NodeKey))
    (p : NodeKey) :
    ∀ (fuel : Nat) (q visited : List NodeKey), (∀ s ∈ q, Reach E p s) →
      bfsReach cons E fuel q visited = true →
      ∃ c, cons c = true ∧ Reach E p c := by
  intro fuel
  induction fuel with
  | zero =>
    intro q visited _ h
    simp [bfsReach] at h
  | succ n ih =>
    intro q visited hq h
    cases q with
    | nil => simp [bfsReach] at h
    | cons curr rest =>
      simp only [bfsReach] at h
      by_cases hc : cons curr = true
      · exact ⟨curr, hc, hq curr (List.mem_cons_self curr rest)⟩
      · rw [if_neg hc] at h
        obtain ⟨L, hq1, _, hLsub, _, _⟩ :=
          enqueueNew_spec (neighborsOf E curr) rest visited
        refine ih _ _ ?_ h
        intro s hs
        rw [hq1] at hs
        rcases List.mem_append.mp hs with hs | hs
        · exact hq s (List.mem_cons_of_mem curr hs)
        · exact Reach.snoc (hq curr (List.mem_cons_self curr rest))
            ((mem_neighborsOf E curr s).mp (hLsub s hs))

/-- BFS completeness: with enough fuel, a consumer reachable from the
queue along a path avoiding the visited set is found. -/
theorem bfsReach_complete (cons : NodeKey → Bool)
    (E : List (NodeKey × NodeKey)) (allK : List NodeKey)
    (hE : ∀ a b, (a, b) ∈ E → b ∈ allK) :
    ∀ (fuel : Nat) (q visited : List NodeKey), visited.Nodup →
      (∀ x ∈ visited, x ∈ allK) →
      q.length + (allK.length - visited.length) ≤ fuel →
      (∃ c, cons c = true ∧ ∃ s ∈ q, ReachAvoid E visited s c) →
      bfsReach cons E fuel q visited = true := by
  intro fuel
  induction fuel with
  | zero =>
    intro q visited _ _ hcount hwit
    obtain ⟨c, _, s, hs, _⟩ := hwit
    have hq : q.length = 0 := by omega
    rw [List.length_eq_zero] at hq
    subst hq
    cases hs
  | succ n ih =>
    intro q visited hnd hsub hcount hwit
    obtain ⟨c, hc, s, hs, hra⟩ := hwit
    cases q with
    | nil => cases hs
    | cons curr rest =>
      simp only [bfsReach]
      by_cases hcur : cons curr = true
      · rw [if_pos hcur]
      · rw [if_neg hcur]
        obtain ⟨L, hq1, hq2, hLsub, hLnodup, hLall⟩ :=
          enqueueNew_spec (neighborsOf E curr) rest visited
        have hVV : ∀ x ∈ visited, x ∈ (enqueueNew (neighborsOf E curr) rest visited).2 := by
          intro x hx
          rw [hq2]
          exact List.mem_append_left L hx
        have hnewQ : ∀ x, x ∉ visited →
            x ∈ (enqueueNew (neighborsOf E curr) rest visited).2 →
            x ∈ (enqueueNew (neighborsOf E curr) rest visited).1 := by
          intro x hxv hxv'
          rw [hq2] at hxv'
          rw [hq1]
          rcases List.mem_append.mp hxv' with hx | hx
          · exact absurd hx hxv
          · exact List.mem_append_right rest hx
        apply ih
        · rw [hq2]
          exact hLnodup hnd
        · rw [hq2]
          intro x hx
          rcases List.mem_append.mp hx with hx | hx
          · exact hsub x hx
          · exact hE curr x ((mem_neighborsOf E curr x).mp (hLsub x hx))
        · rw [hq1, hq2]
          simp only [List.length_append]
          have hlen2 : (visited ++ L).length ≤ allK.length := by
            refine nodup_subset_length_le (hLnodup hnd) ?_
            intro x hx
            rcases List.mem_append.mp hx with hx | hx
            · exact hsub x hx
            · exact hE curr x ((mem_neighborsOf E curr x).mp (hLsub x hx))
          simp only [List.length_append] at hlen2
          simp only [List.length_cons] at hcount
          omega
        · rcases List.mem_cons.mp hs with hseq | hsrest
          · subst hseq
            cases hra with
            | refl => exact absurd hc hcur
            | step hedge hbv hr =>
              rename_i b
              have hbn : b ∈ neighborsOf E s :=
                (mem_neighborsOf E s b).mpr hedge
              have hbvL : b ∈ visited ++ L := hq2 ▸ hLall b hbn
              have hbL : b ∈ L := by
                rcases List.mem_append.mp hbvL with hx | hx
                · exact absurd hx hbv
                · exact hx
              rcases reachAvoid_repair hr hVV hnewQ with ⟨s', hs', hra'⟩ | hra'
              · exact ⟨c, hc, s', hs', hra'⟩
              · refine ⟨c, hc, b, ?_, hra'⟩
                rw [hq1]
                exact List.mem_append_right rest hbL
          · rcases reachAvoid_repair hra hVV hnewQ with ⟨s', hs', hra'⟩ | hra'
            · exact ⟨c, hc, s', hs', hra'⟩
            · refine ⟨c, hc, s, ?_, hra'⟩
              rw [hq1]
              exact List.mem_append_left L hsrest

/-- Producer-key membership is the spec's producer predicate. -/
theorem mem_producerKeys (w : WorkflowSchema) (p : NodeKey) :
    p ∈ producerKeys w ↔ IsProducer w p := by
  simp only [producerKeys, List.mem_map, List.mem_filter, IsProducer]
  constructor
  · rintro ⟨n, ⟨hn, hpred⟩, rfl⟩
    refine ⟨n, hn, rfl, ?_⟩
    cases hsc : n.StreamConfigs with
    | none => rw [hsc] at hpred; simp at hpred
    | some scv => rw [hsc] at hpred; exact ⟨scv, rfl, hpred⟩
  · rintro ⟨n, hn, rfl, scv, hsc, hgen⟩
    refine ⟨n, ⟨hn, ?_⟩, rfl⟩
    rw [hsc]
    exact hgen

/-- Consumer-map membership is the spec's consumer predicate. -/
theorem isConsumerKey_iff (w : WorkflowSchema) (k : NodeKey) :
    isConsumerKey w k = true ↔ IsConsumer w k := by
  simp only [isConsumerKey, List.any_eq_true, Bool.and_eq_true, beq_iff_eq,
    IsConsumer]
  constructor
  · rintro ⟨n, hn, hkey, hmatch⟩
    refine ⟨n, hn, hkey, ?_⟩
    cases hsc : n.StreamConfigs with
    | none => rw [hsc] at hmatch; simp at hmatch
    | some scv => rw [hsc] at hmatch; exact ⟨scv, rfl, hmatch⟩
  · rintro ⟨n, hn, hkey, scv, hsc, hreq⟩
    refine ⟨n, hn, hkey, ?_⟩
    rw [hsc]
    exact hreq

/-- The consumer map is non-empty exactly when a spec-side consumer
exists. -/
theorem hasConsumer_iff (w : WorkflowSchema) :
    hasConsumer w = true ↔ ∃ c, IsConsumer w c := by
  simp only [hasConsumer, List.any_eq_true]
  constructor
  · rintro ⟨n, hn, hmatch⟩
    refine ⟨n.Key, n, hn, rfl, ?_⟩
    cases hsc : n.StreamConfigs with
    | none => rw [hsc] at hmatch; simp at hmatch
    | some scv => rw [hsc] at hmatch; exact ⟨scv, rfl, hmatch⟩
  · rintro ⟨c, n, hn, _, scv, hsc, hreq⟩
    refine ⟨n, hn, ?_⟩
    rw [hsc]
    exact hreq

/-- Every data-flow edge points at the key of some node of the schema. -/
theorem dataFlowEdges_target (w : WorkflowSchema) (a b : NodeKey)
    (h : (a, b) ∈ dataFlowEdges w) : b ∈ w.Nodes.map NodeSchema.Key := by
  simp only [dataFlowEdges, List.mem_flatMap, List.mem_filterMap] at h
  obtain ⟨n, hn, s, _, hs⟩ := h
  split at hs
  · split at hs
    · injection hs with hs
      have hb : n.Key = b := congrArg Prod.snd hs
      exact hb ▸ List.mem_map_of_mem NodeSchema.Key hn
    · exact Option.noConfusion hs
  · exact Option.noConfusion hs

/-- C4: RequireStreaming is true exactly when some producer node (stream
config declares can_generate_stream) reaches some consumer node (stream
config declares requires_streaming_input) in the data-flow graph whose
edges run from each input source's referenced node to the node holding
the input source; a node that is both producer and consumer satisfies
this by the empty path, and a workflow without producers or without
consumers yields false because the right-hand side is then unsatisfiable. -/
theorem C4_require_streaming_reachability (w : WorkflowSchema) :
    w.RequireStreaming = true ↔
      ∃ p c, IsProducer w p ∧ IsConsumer w c ∧
        Reach (dataFlowEdges w) p c := by
  rw [WorkflowSchema.RequireStreaming, WorkflowSchema.doRequireStreaming]
  by_cases hguard : producerKeys w = [] ∨ hasConsumer w = false
  · rw [if_pos hguard]
    constructor
    · intro h
      exact absurd h (by simp)
    · rintro ⟨p, c, hp, hc, _⟩
      rcases hguard with hg | hg
      · have hpm := (mem_producerKeys w p).mpr hp
        rw [hg] at hpm
        cases hpm
      · have hcm := (hasConsumer_iff w).mpr ⟨c, hc⟩
        rw [hg] at hcm
        exact absurd hcm (by simp)
  · rw [if_neg hguard]
    constructor
    · intro h
      rw [List.any_eq_true] at h
      obtain ⟨p, hpmem, hbfs⟩ := h
      obtain ⟨c, hc, hreach⟩ :=
        bfsReach_sound (isConsumerKey w) (dataFlowEdges w) p
          (w.Nodes.length + 1) [p] [p]
          (by
            intro s hs
            simp at hs
            subst hs
            exact Reach.refl s) hbfs
      exact ⟨p, c, (mem_producerKeys w p).mp hpmem,
        (isConsumerKey_iff w c).mp hc, hreach⟩
    · rintro ⟨p, c, hp, hc, hreach⟩
      rw [List.any_eq_true]
      refine ⟨p, (mem_producerKeys w p).mpr hp, ?_⟩
      apply bfsReach_complete (isConsumerKey w) (dataFlowEdges w)
        (w.Nodes.map NodeSchema.Key)
        (fun a b hab => dataFlowEdges_target w a b hab)
      · exact List.nodup_singleton p
      · intro x hx
        simp at hx
        subst hx
        obtain ⟨n, hn, hkey, _⟩ := hp
        exact hkey ▸ List.mem_map_of_mem NodeSchema.Key hn
      · simp only [List.length_map, List.length_singleton]
        omega
      · obtain ⟨s, hsV, hra⟩ := reach_exists_avoid hreach [p] (by simp)
        simp at hsV
        subst hsV
        exact ⟨c, (isConsumerKey_iff w c).mpr hc, s, by simp, hra⟩

/-! ### Pruning lemmas feeding the connection-endpoint claim -/

/-- Key membership after insert-or-replace. -/
theorem mem_keys_updateAssoc {α : Type} (m : List (String × α))
    (k j : String) (v : α) :
    j ∈ keysOfAssoc (updateAssoc m k v) ↔ j ∈ keysOfAssoc m ∨ j = k := by
  rw [keysOfAssoc_updateAssoc]
  by_cases h : k ∈ keysOfAssoc m
  · rw [if_pos h]
    constructor
    · exact Or.inl
    · rintro (hj | rfl)
      · exact hj
      · exact h
  · rw [if_neg h]
    simp

/-- Key membership after a counter bump. -/
theorem mem_keys_bumpAssoc (m : List (String × Nat)) (k j : String) :
    j ∈ keysOfAssoc (bumpAssoc m k) ↔ j ∈ keysOfAssoc m ∨ j = k := by
  rw [bumpAssoc]
  cases h : lookupAssoc m k with
  | some v => exact mem_keys_updateAssoc m k j (v + 1)
  | none => exact mem_keys_updateAssoc m k j 1

/-- A counter bump keeps the keys duplicate-free. -/
theorem nodup_keys_bumpAssoc (m : List (String × Nat)) (k : String)
    (h : (keysOfAssoc m).Nodup) : (keysOfAssoc (bumpAssoc m k)).Nodup := by
  rw [bumpAssoc]
  cases lookupAssoc m k with
  | some v => exact nodup_keysOfAssoc_updateAssoc m k (v + 1) h
  | none => exact nodup_keysOfAssoc_updateAssoc m k 1 h

/-- The edge-count pass preserves the key set. -/
theorem countEdgeTargets_keys :
    ∀ (es : List Edge) (c c' : List (String × Nat)),
      countEdgeTargets es c = .ok c' →
      ∀ k, k ∈ keysOfAssoc c' ↔ k ∈ keysOfAssoc c := by
  intro es
  induction es with
  | nil =>
    intro c c' h k
    simp only [countEdgeTargets] at h
    injection h with h
    rw [h]
  | cons e rest ih =>
    intro c c' h k
    simp only [countEdgeTargets] at h
    cases hl : lookupAssoc c e.TargetNodeID with
    | none => rw [hl] at h; exact Except.noConfusion h
    | some v =>
      rw [hl] at h
      have hk := ih _ _ h k
      rw [hk, mem_keys_bumpAssoc]
      constructor
      · rintro (hj | rfl)
        · exact hj
        · exact mem_keysOfAssoc_of_lookup hl
      · exact Or.inl

/-- The edge-count pass keeps the keys duplicate-free. -/
theorem countEdgeTargets_nodup :
    ∀ (es : List Edge) (c c' : List (String × Nat)),
      countEdgeTargets es c = .ok c' →
      (keysOfAssoc c).Nodup → (keysOfAssoc c').Nodup := by
  intro es
  induction es with
  | nil =>
    intro c c' h hnd
    simp only [countEdgeTargets] at h
    injection h with h
    rw [← h]
    exact hnd
  | cons e rest ih =>
    intro c c' h hnd
    simp only [countEdgeTargets] at h
    cases hl : lookupAssoc c e.TargetNodeID with
    | none => rw [hl] at h; exact Except.noConfusion h
    | some v =>
      rw [hl] at h
      exact ih _ _ h (nodup_keys_bumpAssoc c e.TargetNodeID hnd)

/-- The edge-count pass never decreases a counter. -/
theorem countEdgeTargets_mono :
    ∀ (es : List Edge) (c c' : List (String × Nat)),
      countEdgeTargets es c = .ok c' →
      ∀ k v, lookupAssoc c k = some v →
        ∃ v', v ≤ v' ∧ lookupAssoc c' k = some v' := by
  intro es
  induction es with
  | nil =>
    intro c c' h k v hv
    simp only [countEdgeTargets] at h
    injection h with h
    exact ⟨v, le_refl v, h ▸ hv⟩
  | cons e rest ih =>
    intro c c' h k v hv
    simp only [countEdgeTargets] at h
    cases hl : lookupAssoc c e.TargetNodeID with
    | none => rw [hl] at h; exact Except.noConfusion h
    | some v0 =>
      rw [hl] at h
      have hlb : ∀ j, lookupAssoc (bumpAssoc c e.TargetNodeID) j =
          if e.TargetNodeID = j then some (v0 + 1) else lookupAssoc c j := by
        intro j
        rw [bumpAssoc, hl]
        exact lookupAssoc_updateAssoc c e.TargetNodeID j (v0 + 1)
      by_cases hk : e.TargetNodeID = k
      · subst hk
        have hveq : v0 = v := by
          rw [hl] at hv
          injection hv
        obtain ⟨v', hle, hv'⟩ := ih _ _ h e.TargetNodeID (v0 + 1)
          (by rw [hlb]; simp)
        exact ⟨v', by omega, hv'⟩
      · obtain ⟨v', hle, hv'⟩ := ih _ _ h k v
          (by rw [hlb, if_neg hk]; exact hv)
        exact ⟨v', hle, hv'⟩

/-- After the edge-count pass, every edge target's counter is positive. -/
theorem countEdgeTargets_pos :
    ∀ (es : List Edge) (c c' : List (String × Nat)),
      countEdgeTargets es c = .ok c' →
      ∀ e ∈ es, ∃ v', 1 ≤ v' ∧ lookupAssoc c' e.TargetNodeID = some v' := by
  intro es
  induction es with
  | nil =>
    intro c c' _ e he
    cases he
  | cons e0 rest ih =>
    intro c c' h e he
    simp only [countEdgeTargets] at h
    cases hl : lookupAssoc c e0.TargetNodeID with
    | none => rw [hl] at h; exact Except.noConfusion h
    | some v0 =>
      rw [hl] at h
      rcases List.mem_cons.mp he with rfl | he'
      · have hlb : lookupAssoc (bumpAssoc c e.TargetNodeID) e.TargetNodeID =
            some (v0 + 1) := by
          rw [bumpAssoc, hl, lookupAssoc_updateAssoc]
          simp
        obtain ⟨v', hle, hv'⟩ := countEdgeTargets_mono rest _ _ h _ _ hlb
        exact ⟨v', by omega, hv'⟩
      · exact ih _ _ h e he'

/-- The finishing pass of pruning: surviving edges come from the input
edges, and any node matching a surviving edge's endpoint survives. -/
theorem pruneFinish_spec (nodes1 : List Node) (count1 : List (String × Nat))
    (edges : List Edge) (ns : List Node) (es : List Edge)
    (hnd : (keysOfAssoc count1).Nodup)
    (h : pruneFinish nodes1 count1 edges = .ok (ns, es)) :
    (∀ n' ∈ ns, n' ∈ nodes1) ∧
    (∀ e ∈ es, e ∈ edges ∧
      (∀ nd ∈ nodes1, nd.ID = e.SourceNodeID → nd ∈ ns) ∧
      (∀ nd ∈ nodes1, nd.ID = e.TargetNodeID → nd ∈ ns)) := by
  simp only [pruneFinish] at h
  cases hcet : countEdgeTargets edges
      (updateAssoc (updateAssoc count1 EntryNodeKey 1) ExitNodeKey 1) with
  | error e0 => rw [hcet] at h; exact Except.noConfusion h
  | ok count3 =>
    rw [hcet] at h
    injection h with h
    have hns : ns = nodes1.filter
        (fun nd => ¬ ((count3.filter (fun kv => kv.2 = 0)).map Prod.fst).contains nd.ID) :=
      (congrArg Prod.fst h).symm
    have hes : es = edges.filter
        (fun e => ¬ ((count3.filter (fun kv => kv.2 = 0)).map Prod.fst).contains e.SourceNodeID) :=
      (congrArg Prod.snd h).symm
    have hnd3 : (keysOfAssoc count3).Nodup := by
      refine countEdgeTargets_nodup edges _ _ hcet ?_
      exact nodup_keysOfAssoc_updateAssoc _ _ _
        (nodup_keysOfAssoc_updateAssoc _ _ _ hnd)
    have hiso : ∀ x, x ∈ (count3.filter (fun kv => kv.2 = 0)).map Prod.fst →
        lookupAssoc count3 x = some 0 := by
      intro x hx
      obtain ⟨⟨a, b⟩, hab, hax⟩ := List.mem_map.mp hx
      obtain ⟨hmem, hb⟩ := List.mem_filter.mp hab
      simp at hb
      subst hb
      subst hax
      exact lookupAssoc_of_mem hnd3 hmem
    constructor
    · intro n' hn'
      rw [hns] at hn'
      exact (List.mem_filter.mp hn').1
    · intro e he
      rw [hes] at he
      obtain ⟨hemem, hkeep⟩ := List.mem_filter.mp he
      simp only [decide_eq_true_eq] at hkeep
      refine ⟨hemem, ?_, ?_⟩
      · intro nd hnd1 hid
        rw [hns]
        refine List.mem_filter.mpr ⟨hnd1, ?_⟩
        simp only [decide_eq_true_eq]
        rw [hid]
        exact hkeep
      · intro nd hnd1 hid
        obtain ⟨v', hv1, hv'⟩ := countEdgeTargets_pos edges _ _ hcet e hemem
        rw [hns]
        refine List.mem_filter.mpr ⟨hnd1, ?_⟩
        simp only [decide_eq_true_eq]
        intro hcont
        have h0 := hiso nd.ID (List.elem_iff.mp hcont)
        rw [hid] at h0
        rw [h0] at hv'
        injection hv' with hv'
        omega

/-- The per-node pruning step keeps the node's identity, type and data. -/
theorem prunePass1Node_preserves {n n' : Node}
    (h : prunePass1Node n = .ok n') :
    n'.ID = n.ID ∧ n'.NType = n.NType ∧ n'.NData = n.NData := by
  cases n with
  | mk nid ntyp ndata blocks nedges =>
    cases blocks with
    | nil =>
      simp only [prunePass1Node] at h
      injection h with h
      subst h
      exact ⟨rfl, rfl, rfl⟩
    | cons b0 btl =>
      cases nedges with
      | nil =>
        simp only [prunePass1Node] at h
        injection h with h
        subst h
        exact ⟨rfl, rfl, rfl⟩
      | cons e0 etl =>
        simp only [prunePass1Node] at h
        split at h
        · exact Except.noConfusion h
        · split at h
          · exact Except.noConfusion h
          · injection h with h
            subst h
            exact ⟨rfl, rfl, rfl⟩

/-- Pointwise-successful mapping preserves the projected id list. -/
theorem forall2_prune_map_id {l l' : List Node}
    (h : List.Forall₂ (fun n n' => prunePass1Node n = .ok n') l l') :
    l.map Node.ID = l'.map Node.ID := by
  induction h with
  | nil => rfl
  | cons hrel _ ihh =>
    simp only [List.map_cons, ihh, (prunePass1Node_preserves hrel).1]

/-- Right members of a pointwise relation come from left members. -/
theorem forall2_mem_right {R : Node → Node → Prop} {l l' : List Node}
    (h : List.Forall₂ R l l') : ∀ y ∈ l', ∃ x ∈ l, R x y := by
  induction h with
  | nil => intro y hy; cases hy
  | cons hrel _ ihh =>
    intro y hy
    rcases List.mem_cons.mp hy with rfl | hy'
    · exact ⟨_, List.mem_cons_self _ _, hrel⟩
    · obtain ⟨x, hx, hr⟩ := ihh y hy'
      exact ⟨x, List.mem_cons_of_mem _ hx, hr⟩

/-- The first pruning pass: the output nodes are the pointwise successful
per-node prunes, and the final count's keys are the initial keys plus the
node ids, duplicate-freeness preserved. -/
theorem prunePass1_spec :
    ∀ (nodes : List Node) (count : List (String × Nat)) (parent : Option Node)
      (res : List Node × List (String × Nat)),
      (∀ p, parent = some p → p.ID ∈ keysOfAssoc count) →
      prunePass1 nodes count parent = .ok res →
      List.Forall₂ (fun n n' => prunePass1Node n = .ok n') nodes res.1 ∧
      (∀ k, k ∈ keysOfAssoc res.2 ↔ k ∈ keysOfAssoc count ∨ k ∈ nodes.map Node.ID) ∧
      ((keysOfAssoc count).Nodup → (keysOfAssoc res.2).Nodup) := by
  intro nodes
  induction nodes with
  | nil =>
    intro count parent res _ h
    simp only [prunePass1] at h
    injection h with h
    subst h
    refine ⟨List.Forall₂.nil, ?_, fun hnd => hnd⟩
    simp
  | cons node rest ih =>
    intro count parent res hp h
    cases hp1 : prunePass1Node node with
    | error e =>
      simp only [prunePass1, hp1] at h
      exact Except.noConfusion h
    | ok node1 =>
      have hkeys1 : ∀ j, j ∈ keysOfAssoc (updateAssoc count node.ID 0) ↔
          j ∈ keysOfAssoc count ∨ j = node.ID :=
        fun j => mem_keys_updateAssoc count node.ID j 0
      have main : ∀ count2 : List (String × Nat),
          (∀ j, j ∈ keysOfAssoc count2 ↔ j ∈ keysOfAssoc count ∨ j = node.ID) →
          ((keysOfAssoc count).Nodup → (keysOfAssoc count2).Nodup) →
          ∀ rc : List Node × List (String × Nat),
            prunePass1 rest count2 parent = .ok rc →
            res = (node1 :: rc.1, rc.2) →
            List.Forall₂ (fun n n' => prunePass1Node n = .ok n') (node :: rest) res.1 ∧
            (∀ k, k ∈ keysOfAssoc res.2 ↔
              k ∈ keysOfAssoc count ∨ k ∈ (node :: rest).map Node.ID) ∧
            ((keysOfAssoc count).Nodup → (keysOfAssoc res.2).Nodup) := by
        intro count2 hkeys2 hnd2 rc hrec hres
        subst hres
        have hp2 : ∀ p, parent = some p → p.ID ∈ keysOfAssoc count2 :=
          fun p hpar => (hkeys2 p.ID).mpr (Or.inl (hp p hpar))
        obtain ⟨hf2, hkeys3, hnd3⟩ := ih count2 parent rc hp2 hrec
        refine ⟨List.Forall₂.cons hp1 hf2, ?_, fun hnd => hnd3 (hnd2 hnd)⟩
        intro k
        rw [show keysOfAssoc (node1 :: rc.1, rc.2).2 = keysOfAssoc rc.2 from rfl,
          hkeys3, hkeys2]
        simp only [List.map_cons, List.mem_cons]
        constructor
        · rintro ((hk | rfl) | hk)
          · exact Or.inl hk
          · exact Or.inr (Or.inl rfl)
          · exact Or.inr (Or.inr hk)
        · rintro (hk | (rfl | hk))
          · exact Or.inl (Or.inl hk)
          · exact Or.inl (Or.inr rfl)
          · exact Or.inr hk
      by_cases hcond : node.NType = NodeTypeContinueIDStr ∨
          node.NType = NodeTypeBreakIDStr
      · cases parent with
        | none =>
          simp only [prunePass1, hp1, if_pos hcond] at h
          cases hrec : prunePass1 rest (updateAssoc count node.ID 0) none with
          | error e =>
            rw [hrec] at h
            exact Except.noConfusion h
          | ok rc =>
            rw [hrec] at h
            injection h with h
            exact main _ hkeys1
              (fun hnd => nodup_keysOfAssoc_updateAssoc _ _ _ hnd) rc hrec h.symm
        | some p =>
          simp only [prunePass1, hp1, if_pos hcond] at h
          cases hrec : prunePass1 rest
              (bumpAssoc (updateAssoc count node.ID 0) p.ID) (some p) with
          | error e =>
            rw [hrec] at h
            exact Except.noConfusion h
          | ok rc =>
            rw [hrec] at h
            injection h with h
            refine main _ ?_ ?_ rc hrec h.symm
            · intro j
              rw [mem_keys_bumpAssoc, hkeys1]
              constructor
              · rintro ((hj | rfl) | rfl)
                · exact Or.inl hj
                · exact Or.inr rfl
                · exact Or.inl (hp p rfl)
              · rintro (hj | rfl)
                · exact Or.inl (Or.inl hj)
                · exact Or.inl (Or.inr rfl)
            · exact fun hnd => nodup_keys_bumpAssoc _ _
                (nodup_keysOfAssoc_updateAssoc _ _ _ hnd)
      · simp only [prunePass1, hp1, if_neg hcond] at h
        cases hrec : prunePass1 rest (updateAssoc count node.ID 0) parent with
        | error e =>
          rw [hrec] at h
          exact Except.noConfusion h
        | ok rc =>
          rw [hrec] at h
          injection h with h
          exact main _ hkeys1
            (fun hnd => nodup_keysOfAssoc_updateAssoc _ _ _ hnd) rc hrec h.symm

/-- Both pruning passes combined: surviving nodes are successful per-node
prunes of input nodes, and surviving edges keep endpoints among the
parent ids or the surviving node ids. -/
theorem prune_core (nodes : List Node) (initCount : List (String × Nat))
    (parent : Option Node) (edges : List Edge)
    (nc : List Node × List (String × Nat)) (ns : List Node) (es : List Edge)
    (pIds : List String)
    (hp : ∀ p, parent = some p → p.ID ∈ keysOfAssoc initCount)
    (hnd : (keysOfAssoc initCount).Nodup)
    (h1 : prunePass1 nodes initCount parent = .ok nc)
    (h2 : pruneFinish nc.1 nc.2 edges = .ok (ns, es))
    (hedges : ∀ e ∈ edges,
      (e.SourceNodeID ∈ pIds ∨ e.SourceNodeID ∈ nodes.map Node.ID) ∧
      (e.TargetNodeID ∈ pIds ∨ e.TargetNodeID ∈ nodes.map Node.ID)) :
    (∀ n' ∈ ns, ∃ n ∈ nodes, prunePass1Node n = .ok n') ∧
    (∀ e ∈ es,
      (e.SourceNodeID ∈ pIds ∨ e.SourceNodeID ∈ ns.map Node.ID) ∧
      (e.TargetNodeID ∈ pIds ∨ e.TargetNodeID ∈ ns.map Node.ID)) := by
  obtain ⟨hf2, _, hnd2⟩ := prunePass1_spec nodes initCount parent nc hp h1
  have hids : nodes.map Node.ID = nc.1.map Node.ID := forall2_prune_map_id hf2
  obtain ⟨hsub, hes⟩ := pruneFinish_spec nc.1 nc.2 edges ns es (hnd2 hnd) h2
  constructor
  · intro n' hn'
    exact forall2_mem_right hf2 n' (hsub n' hn')
  · intro e he
    obtain ⟨hemem, hsrc, htgt⟩ := hes e he
    obtain ⟨hes0, het0⟩ := hedges e hemem
    constructor
    · rcases hes0 with hx | hx
      · exact Or.inl hx
      · rw [hids] at hx
        obtain ⟨nd, hndm, hndid⟩ := List.mem_map.mp hx
        refine Or.inr (List.mem_map.mpr ⟨nd, hsrc nd hndm hndid, hndid⟩)
    · rcases het0 with hx | hx
      · exact Or.inl hx
      · rw [hids] at hx
        obtain ⟨nd, hndm, hndid⟩ := List.mem_map.mp hx
        refine Or.inr (List.mem_map.mpr ⟨nd, htgt nd hndm hndid, hndid⟩)

/-- The per-node pruning step preserves the well-formedness conditions. -/
theorem prunePass1Node_wf {n n' : Node} (hwf : WFNode n)
    (h : prunePass1Node n = .ok n') : WFNode n' := by
  cases n with
  | mk nid ntyp ndata blocks nedges =>
    cases hb : blocks with
    | nil =>
      subst hb
      simp only [prunePass1Node] at h
      injection h with h
      subst h
      exact hwf
    | cons b0 btl =>
      cases hed : nedges with
      | nil =>
        subst hb hed
        simp only [prunePass1Node] at h
        injection h with h
        subst h
        exact hwf
      | cons e0 etl =>
        subst hb hed
        simp only [prunePass1Node] at h
        cases hbc : prunePass1 (b0 :: btl) [(nid, 0)]
            (some (Node.mk nid ntyp ndata (b0 :: btl) (e0 :: etl))) with
        | error e =>
          simp only [hbc] at h
          exact Except.noConfusion h
        | ok bc =>
          simp only [hbc] at h
          cases hbe : pruneFinish bc.1 bc.2 (e0 :: etl) with
          | error e =>
            simp only [hbe] at h
            exact Except.noConfusion h
          | ok be =>
            simp only [hbe] at h
            injection h with h
            obtain ⟨hty, hedges, hblocks, hbatch, hsubwf⟩ := hwf
            have hcore := prune_core (b0 :: btl) [(nid, 0)]
              (some (Node.mk nid ntyp ndata (b0 :: btl) (e0 :: etl)))
              (e0 :: etl) bc be.1 be.2 [nid]
              (by
                intro p hpeq
                injection hpeq with hpeq
                subst hpeq
                simp [keysOfAssoc, Node.ID])
              (by simp [keysOfAssoc])
              hbc
              (by rw [show (be.1, be.2) = be from rfl]; exact hbe)
              (by
                intro e hemem
                obtain ⟨h1, h2⟩ := hedges e hemem
                simp only [Node.ID, Node.Blocks, List.mem_cons] at h1 h2
                constructor
                · rcases h1 with h1 | h1
                  · exact Or.inl (by simp [h1])
                  · exact Or.inr h1
                · rcases h2 with h2 | h2
                  · exact Or.inl (by simp [h2])
                  · exact Or.inr h2)
            obtain ⟨hnodes, hedgeres⟩ := hcore
            subst h
            refine ⟨hty, ?_, ?_, ?_, ?_⟩
            · intro e hemem
              simp only [Node.withBlocksEdges, Node.Edges] at hemem
              obtain ⟨h1, h2⟩ := hedgeres e hemem
              simp only [Node.withBlocksEdges, Node.ID, Node.Blocks]
              constructor
              · rcases h1 with h1 | h1
                · simp at h1
                  simp [h1]
                · exact List.mem_cons_of_mem _ h1
              · rcases h2 with h2 | h2
                · simp at h2
                  simp [h2]
                · exact List.mem_cons_of_mem _ h2
            · intro b hbmem
              simp only [Node.withBlocksEdges, Node.Blocks] at hbmem
              obtain ⟨b0', hb0', hpr⟩ := hnodes b hbmem
              have := (prunePass1Node_preserves hpr).2.1
              rw [this]
              exact hblocks b0' hb0'
            · intro hbat
              exact absurd (hbatch hbat) (by simp [Node.Blocks])
            · intro hsw
              exact absurd (hsubwf hsw) (by simp [Node.Blocks])

/-- The block loop of compilation: it never touches schema nodes, only
appends break/continue connections pointing from a block to the parent,
and succeeds only when every block is a leaf. -/
theorem processBlocks_spec (pid : String) :
    ∀ (blocks : List Node) (acc acc' : CompileAcc),
      processBlocks pid blocks acc = .ok acc' →
      acc'.SchemaNodes = acc.SchemaNodes ∧
      (∃ cs, acc'.Connections = acc.Connections ++ cs ∧
        ∀ c ∈ cs, c.FromNode ∈ blocks.map Node.ID ∧ c.ToNode = pid) ∧
      (∀ b ∈ blocks, b.Blocks = [] ∧ b.Edges = []) := by
  intro blocks
  induction blocks with
  | nil =>
    intro acc acc' h
    simp only [processBlocks] at h
    injection h with h
    subst h
    exact ⟨rfl, ⟨[], by simp, by simp⟩, by simp⟩
  | cons sub rest ih =>
    intro acc acc' h
    simp only [processBlocks] at h
    by_cases hbe : sub.Blocks.isEmpty = true
    · rw [if_neg (by simp [hbe])] at h
      by_cases hee : sub.Edges.isEmpty = true
      · rw [if_neg (by simp [hee])] at h
        by_cases hbc : sub.NType = NodeTypeBreakIDStr ∨ sub.NType = NodeTypeContinueIDStr
        · rw [if_pos hbc] at h
          obtain ⟨hsch, ⟨cs, hconn, hcs⟩, hleaf⟩ := ih _ _ h
          refine ⟨hsch, ⟨⟨sub.ID, pid, none⟩ :: cs, ?_, ?_⟩, ?_⟩
          · rw [hconn]
            simp
          · intro c hc
            rcases List.mem_cons.mp hc with rfl | hc
            · exact ⟨by simp, rfl⟩
            · obtain ⟨h1, h2⟩ := hcs c hc
              exact ⟨List.mem_cons_of_mem _ h1, h2⟩
          · intro b hb
            rcases List.mem_cons.mp hb with rfl | hb
            · exact ⟨List.isEmpty_iff.mp hbe, List.isEmpty_iff.mp hee⟩
            · exact hleaf b hb
        · rw [if_neg hbc] at h
          obtain ⟨hsch, ⟨cs, hconn, hcs⟩, hleaf⟩ := ih _ _ h
          refine ⟨hsch, ⟨cs, hconn, ?_⟩, ?_⟩
          · intro c hc
            obtain ⟨h1, h2⟩ := hcs c hc
            exact ⟨List.mem_cons_of_mem _ h1, h2⟩
          · intro b hb
            rcases List.mem_cons.mp hb with rfl | hb
            · exact ⟨List.isEmpty_iff.mp hbe, List.isEmpty_iff.mp hee⟩
            · exact hleaf b hb
      · have hf : sub.Edges.isEmpty = false := by
          cases hx : sub.Edges.isEmpty
          · rfl
          · exact absurd hx hee
        rw [if_pos (by simp [hf])] at h
        exact Except.noConfusion h
    · have hf : sub.Blocks.isEmpty = false := by
        cases hx : sub.Blocks.isEmpty
        · rfl
        · exact absurd hx hbe
      rw [if_pos (by simp [hf])] at h
      exact Except.noConfusion h

/-- Connection-endpoint wellness is monotone in the key set. -/
theorem ConnOK_mono {keys1 keys2 : List NodeKey}
    (hsub : ∀ k ∈ keys1, k ∈ keys2) {c : Connection}
    (h : ConnOK keys1 c) : ConnOK keys2 c := by
  obtain ⟨h1, h2⟩ := h
  refine ⟨hsub _ h1, ?_⟩
  rcases h2 with h2 | h2
  · exact Or.inl h2
  · exact Or.inr (hsub _ h2)

/-- Keys of an appended schema list. -/
theorem keysOf_append (a b : List NodeSchema) :
    keysOf (a ++ b) = keysOf a ++ keysOf b := List.map_append _ a b

/-- A leaf node of schema-yielding type converts to exactly one schema
keyed by the node's id. -/
theorem NodeToNodeSchema_leaf (n : Node) (hty : schemaYieldingType n.NType)
    (hb : n.Blocks = []) (res : List NodeSchema × List (NodeKey × NodeKey))
    (h : NodeToNodeSchema n = .ok res) : keysOf res.1 = [n.ID] := by
  cases n with
  | mk nid ntyp ndata blocks nedges =>
    simp only [Node.Blocks] at hb
    subst hb
    simp only [NodeToNodeSchema] at h
    by_cases h1 : ntyp = NodeTypeSubWorkflowIDStr
    · rw [if_pos h1] at h
      simp only [toSubWorkflowNodeSchema] at h
      injection h with h
      subst h
      rfl
    · rw [if_neg h1] at h
      rcases hty with had | hsw
      · simp only [Node.NType] at had
        rw [if_pos had] at h
        injection h with h
        subst h
        rfl
      · exact absurd hsw h1

/-- Converting a list of schema-yielding leaves yields schemas keyed by
their ids, in order. -/
theorem childNodeSchemas_keys :
    ∀ (bs : List Node) (allNS : List NodeSchema),
      (∀ b ∈ bs, schemaYieldingType b.NType ∧ b.Blocks = []) →
      childNodeSchemas bs = .ok allNS →
      keysOf allNS = bs.map Node.ID := by
  intro bs
  induction bs with
  | nil =>
    intro allNS _ h
    simp only [childNodeSchemas] at h
    injection h with h
    subst h
    rfl
  | cons c rest ih =>
    intro allNS hwf h
    simp only [childNodeSchemas] at h
    cases hc : NodeToNodeSchema c with
    | error e =>
      rw [hc] at h
      exact Except.noConfusion h
    | ok resc =>
      rw [hc] at h
      cases hrest : childNodeSchemas rest with
      | error e =>
        rw [hrest] at h
        exact Except.noConfusion h
      | ok more =>
        rw [hrest] at h
        injection h with h
        subst h
        obtain ⟨hty, hb⟩ := hwf c (List.mem_cons_self _ _)
        rw [keysOf_append, NodeToNodeSchema_leaf c hty hb resc hc,
          ih more (fun b hbm => hwf b (List.mem_cons_of_mem _ hbm)) hrest]
        rfl

/-- Node conversion produces schemas keyed by the node's blocks followed
by the node itself. -/
theorem NodeToNodeSchema_keys (n : Node)
    (res : List NodeSchema × List (NodeKey × NodeKey))
    (hty : schemaYieldingType n.NType)
    (hblocks : ∀ b ∈ n.Blocks, schemaYieldingType b.NType ∧ b.Blocks = [])
    (hsub : n.NType = NodeTypeSubWorkflowIDStr → n.Blocks = [])
    (h : NodeToNodeSchema n = .ok res) :
    keysOf res.1 = n.Blocks.map Node.ID ++ [n.ID] := by
  cases hbs : n.Blocks with
  | nil =>
    rw [NodeToNodeSchema_leaf n hty hbs res h]
    simp
  | cons b0 btl =>
    cases n with
    | mk nid ntyp ndata blocks nedges =>
      simp only [Node.Blocks] at hbs
      subst hbs
      simp only [NodeToNodeSchema] at h
      by_cases h1 : ntyp = NodeTypeSubWorkflowIDStr
      · exact absurd (hsub h1) (by simp [Node.Blocks])
      · rw [if_neg h1] at h
        rcases hty with had | hsw
        · simp only [Node.NType] at had
          rw [if_pos had] at h
          cases hch : childNodeSchemas (b0 :: btl) with
          | error e =>
            rw [hch] at h
            exact Except.noConfusion h
          | ok allNS =>
            rw [hch] at h
            injection h with h
            subst h
            simp only [Node.Blocks, Node.ID]
            rw [keysOf_append,
              childNodeSchemas_keys (b0 :: btl) allNS
                (by simpa [Node.Blocks] using hblocks) hch]
            rfl
        · exact absurd hsw h1

/-- An edge's connection keeps the source node, and targets END or the
edge's target node. -/
theorem edgeToConnection_endpoints (e : Edge) :
    (EdgeToConnection e).FromNode = e.SourceNodeID ∧
    ((EdgeToConnection e).ToNode = END ∨
      (EdgeToConnection e).ToNode = e.TargetNodeID) := by
  refine ⟨rfl, ?_⟩
  by_cases hc : e.SourcePortID.length > 0 ∧
      (e.TargetPortID = "loop-function-inline-input" ∨
       e.TargetPortID = "batch-function-inline-input")
  · exact Or.inl (by simp [EdgeToConnection, hc])
  · exact Or.inr (by simp [EdgeToConnection, hc])

/-- Unfolding the keep-continuation of normalizePorts. -/
theorem normalizePorts_keep_ok {rest : List Connection}
    {m : List (String × Node)} {c : Connection} {out : List Connection}
    (h : (match normalizePorts rest m with
          | .error e => (Except.error e : Except String (List Connection))
          | .ok nrest => Except.ok (c :: nrest)) = .ok out) :
    ∃ nrest, normalizePorts rest m = .ok nrest ∧ out = c :: nrest := by
  cases hrec : normalizePorts rest m with
  | error e =>
    rw [hrec] at h
    exact Except.noConfusion h
  | ok nrest =>
    rw [hrec] at h
    injection h with h
    exact ⟨nrest, rfl, h.symm⟩

/-- Port normalization rewrites only ports: every output connection's
endpoints come from an input connection. -/
theorem normalizePorts_endpoints :
    ∀ (conns : List Connection) (m : List (String × Node))
      (out : List Connection),
      normalizePorts conns m = .ok out →
      ∀ c' ∈ out, ∃ c ∈ conns, c'.FromNode = c.FromNode ∧ c'.ToNode = c.ToNode := by
  intro conns
  induction conns with
  | nil =>
    intro m out h c' hc'
    simp only [normalizePorts] at h
    injection h with h
    subst h
    cases hc'
  | cons conn rest ih =>
    intro m out h
    simp only [normalizePorts] at h
    have hkeep : ∀ (c : Connection),
        c.FromNode = conn.FromNode → c.ToNode = conn.ToNode →
        (match normalizePorts rest m with
          | .error e => (Except.error e : Except String (List Connection))
          | .ok nrest => Except.ok (c :: nrest)) = .ok out →
        ∀ c' ∈ out, ∃ c0 ∈ conn :: rest,
          c'.FromNode = c0.FromNode ∧ c'.ToNode = c0.ToNode := by
      intro c hfrom hto hh c' hc'
      obtain ⟨nrest, hrec, hout⟩ := normalizePorts_keep_ok hh
      subst hout
      rcases List.mem_cons.mp hc' with rfl | hc'
      · exact ⟨conn, List.mem_cons_self _ _, hfrom, hto⟩
      · obtain ⟨c0, hc0, he1, he2⟩ := ih m nrest hrec c' hc'
        exact ⟨c0, List.mem_cons_of_mem _ hc0, he1, he2⟩
    cases hfp : conn.FromPort with
    | none =>
      simp only [hfp] at h
      exact hkeep conn rfl rfl h
    | some p =>
      simp only [hfp] at h
      by_cases hp0 : p.length = 0
      · rw [if_pos hp0] at h
        exact hkeep (Connection.mk conn.FromNode conn.ToNode none) rfl rfl h
      · rw [if_neg hp0] at h
        by_cases hinl : p = "loop-function-inline-output" ∨ p = "loop-output" ∨
            p = "batch-function-inline-output" ∨ p = "batch-output"
        · rw [if_pos hinl] at h
          exact hkeep (Connection.mk conn.FromNode conn.ToNode none) rfl rfl h
        · rw [if_neg hinl] at h
          cases hlk : lookupAssoc m conn.FromNode with
          | none =>
            simp only [hlk] at h
            exact absurd h (by simp)
          | some node =>
            simp only [hlk] at h
            by_cases hsel : node.NType = NodeTypeSelectorIDStr
            · rw [if_pos hsel] at h
              by_cases ht : p = "true"
              · rw [if_pos ht] at h
                exact hkeep
                  (Connection.mk conn.FromNode conn.ToNode (some (branchPort 0)))
                  rfl rfl h
              · rw [if_neg ht] at h
                by_cases hf : p = "false"
                · rw [if_pos hf] at h
                  exact hkeep
                    (Connection.mk conn.FromNode conn.ToNode (some PortDefault))
                    rfl rfl h
                · rw [if_neg hf] at h
                  by_cases htp : strStartsWith p "true_" = true
                  · rw [if_pos htp] at h
                    cases hat : goAtoi (strDrop p 5) with
                    | none =>
                      simp only [hat] at h
                      exact absurd h (by simp)
                    | some k =>
                      simp only [hat] at h
                      exact hkeep
                        (Connection.mk conn.FromNode conn.ToNode (some (branchPort k)))
                        rfl rfl h
                  · rw [if_neg htp] at h
                    exact hkeep
                      (Connection.mk conn.FromNode conn.ToNode (some ""))
                      rfl rfl h
            · rw [if_neg hsel] at h
              exact hkeep
                (Connection.mk conn.FromNode conn.ToNode (some p))
                rfl rfl h

/-- One node-loop iteration appends schemas whose keys include the node's
id and appends only connections whose endpoints resolve within those new
keys. -/
theorem processNode_spec (acc : CompileAcc) (node : Node) (acc' : CompileAcc)
    (hwf : WFNode node) (h : processNode acc node = .ok acc') :
    ∃ ns cs, acc'.SchemaNodes = acc.SchemaNodes ++ ns ∧
      acc'.Connections = acc.Connections ++ cs ∧
      node.ID ∈ keysOf ns ∧
      (∀ c ∈ cs, ConnOK (keysOf ns) c) := by
  simp only [processNode] at h
  cases hpb : processBlocks node.ID node.Blocks
      { acc with nodeMap := updateAssoc acc.nodeMap node.ID node } with
  | error e =>
    simp only [hpb] at h
    exact Except.noConfusion h
  | ok acc1 =>
    simp only [hpb] at h
    obtain ⟨hsch1, ⟨cs0, hconn1, hcs0⟩, hleaf⟩ :=
      processBlocks_spec node.ID node.Blocks _ acc1 hpb
    cases hpm : parseBatchMode node with
    | error e =>
      simp only [hpm] at h
      exact Except.noConfusion h
    | ok batchResult =>
      simp only [hpm] at h
      cases batchResult with
      | some newNode =>
        obtain ⟨d, inp, bi, meta, v, objV, io, hnd0, hin, hbi, hen, hmeta, hpar⟩ :=
          parseBatchMode_some_shape node newNode hpm
        have hbat : batchEnabled node := ⟨d, inp, bi, hnd0, hin, hbi, hen⟩
        have hblocksnil : node.Blocks = [] := hwf.2.2.2.1 hbat
        have hcs0' : ∀ c ∈ cs0, False := by
          intro c hc
          have hx := (hcs0 c hc).1
          rw [hblocksnil] at hx
          simp at hx
        subst hpar
        cases hns : NodeToNodeSchema (batchParentNodeOf node inp bi meta v objV io) with
        | error e =>
          simp only [hns] at h
          exact Except.noConfusion h
        | ok nsh =>
          simp only [hns] at h
          injection h with h
          subst h
          have hkeys : keysOf nsh.1 = [node.ID ++ "_inner", node.ID] := by
            have hk := NodeToNodeSchema_keys
              (batchParentNodeOf node inp bi meta v objV io) nsh
              (Or.inl (show hasNodeAdaptor NodeTypeBatchIDStr = true from by decide))
              (by
                intro b hb
                have hb' : b ∈ [batchInnerNodeOf node inp meta io] := hb
                have hb2 : b = batchInnerNodeOf node inp meta io :=
                  List.mem_singleton.mp hb'
                subst hb2
                exact ⟨hwf.1, rfl⟩)
              (fun hc => absurd hc
                (show ¬ (NodeTypeBatchIDStr = NodeTypeSubWorkflowIDStr) from by decide))
              hns
            exact hk
          refine ⟨nsh.1, cs0 ++ (batchInternalEdges node).map EdgeToConnection,
            ?_, ?_, ?_, ?_⟩
          · show acc1.SchemaNodes ++ nsh.1 = acc.SchemaNodes ++ nsh.1
            rw [hsch1]
          · show acc1.Connections ++ (batchInternalEdges node).map EdgeToConnection =
              acc.Connections ++ (cs0 ++ (batchInternalEdges node).map EdgeToConnection)
            rw [hconn1, List.append_assoc]
          · rw [hkeys]
            simp
          · intro c hc
            rcases List.mem_append.mp hc with hc | hc
            · exact (hcs0' c hc).elim
            · rw [hkeys]
              simp only [batchInternalEdges, List.map_cons, List.map_nil,
                List.mem_cons, List.not_mem_nil, or_false] at hc
              rcases hc with rfl | rfl
              · exact ⟨by simp [EdgeToConnection], Or.inr (by simp [EdgeToConnection])⟩
              · exact ⟨by simp [EdgeToConnection], Or.inr (by simp [EdgeToConnection])⟩
      | none =>
        cases hns : NodeToNodeSchema node with
        | error e =>
          simp only [hns] at h
          exact Except.noConfusion h
        | ok nsh =>
          simp only [hns] at h
          injection h with h
          subst h
          have hkeys : keysOf nsh.1 = node.Blocks.map Node.ID ++ [node.ID] :=
            NodeToNodeSchema_keys node nsh hwf.1
              (fun b hb => ⟨hwf.2.2.1 b hb, (hleaf b hb).1⟩) hwf.2.2.2.2 hns
          refine ⟨nsh.1, cs0 ++ node.Edges.map EdgeToConnection, ?_, ?_, ?_, ?_⟩
          · show acc1.SchemaNodes ++ nsh.1 = acc.SchemaNodes ++ nsh.1
            rw [hsch1]
          · show acc1.Connections ++ node.Edges.map EdgeToConnection =
              acc.Connections ++ (cs0 ++ node.Edges.map EdgeToConnection)
            rw [hconn1, List.append_assoc]
          · rw [hkeys]
            simp
          · intro c hc
            rw [hkeys]
            rcases List.mem_append.mp hc with hc | hc
            · obtain ⟨h1, h2⟩ := hcs0 c hc
              exact ⟨List.mem_append_left _ h1, Or.inr (by rw [h2]; simp)⟩
            · obtain ⟨e, hem, hce⟩ := List.mem_map.mp hc
              subst hce
              obtain ⟨hfrom, hto⟩ := edgeToConnection_endpoints e
              obtain ⟨hsrc, htgt⟩ := hwf.2.1 e hem
              constructor
              · rw [hfrom]
                rcases List.mem_cons.mp hsrc with h1 | h1
                · rw [h1]
                  simp
                · exact List.mem_append_left _ h1
              · rcases hto with h1 | h1
                · exact Or.inl h1
                · refine Or.inr ?_
                  rw [h1]
                  rcases List.mem_cons.mp htgt with h2 | h2
                  · rw [h2]
                    simp
                  · exact List.mem_append_left _ h2

/-- The node loop accumulates schemas and endpoint-resolving
connections. -/
theorem foldProcessNodes_spec :
    ∀ (nodes : List Node) (acc acc' : CompileAcc),
      (∀ n ∈ nodes, WFNode n) →
      foldProcessNodes nodes acc = .ok acc' →
      ∃ ns cs, acc'.SchemaNodes = acc.SchemaNodes ++ ns ∧
        acc'.Connections = acc.Connections ++ cs ∧
        (∀ n ∈ nodes, n.ID ∈ keysOf ns) ∧
        (∀ c ∈ cs, ConnOK (keysOf ns) c) := by
  intro nodes
  induction nodes with
  | nil =>
    intro acc acc' _ h
    simp only [foldProcessNodes] at h
    injection h with h
    subst h
    exact ⟨[], [], by simp, by simp, by simp, by simp⟩
  | cons n rest ih =>
    intro acc acc' hwf h
    simp only [foldProcessNodes] at h
    cases hpn : processNode acc n with
    | error e =>
      simp only [hpn] at h
      exact Except.noConfusion h
    | ok acc2 =>
      simp only [hpn] at h
      obtain ⟨ns1, cs1, hs1, hc1, hid1, hok1⟩ :=
        processNode_spec acc n acc2 (hwf n (List.mem_cons_self _ _)) hpn
      obtain ⟨ns2, cs2, hs2, hc2, hid2, hok2⟩ :=
        ih acc2 acc' (fun n' hn' => hwf n' (List.mem_cons_of_mem _ hn')) h
      have hsubkeys : ∀ k, k ∈ keysOf ns1 ∨ k ∈ keysOf ns2 →
          k ∈ keysOf (ns1 ++ ns2) := by
        intro k hk
        rw [keysOf_append]
        rcases hk with hk | hk
        · exact List.mem_append_left _ hk
        · exact List.mem_append_right _ hk
      refine ⟨ns1 ++ ns2, cs1 ++ cs2, ?_, ?_, ?_, ?_⟩
      · rw [hs2, hs1, List.append_assoc]
      · rw [hc2, hc1, List.append_assoc]
      · intro n' hn'
        rcases List.mem_cons.mp hn' with rfl | hn'
        · exact hsubkeys _ (Or.inl hid1)
        · exact hsubkeys _ (Or.inr (hid2 n' hn'))
      · intro c hc
        rcases List.mem_append.mp hc with hc | hc
        · exact ConnOK_mono (fun k hk => hsubkeys k (Or.inl hk)) (hok1 c hc)
        · exact ConnOK_mono (fun k hk => hsubkeys k (Or.inr hk)) (hok2 c hc)

/-- C8 counterexample: compilation succeeds on a canvas with an edge whose
source node id names no node, and the resulting schema contains a
connection whose from_node is that ghost id, absent from the schema's node
keys — the claimed invariant fails. -/
theorem C8_counterexample_ghost_source :
    ∃ ws, CanvasToWorkflowSchema ghostSourceCanvas = .ok ws ∧
      ∃ conn ∈ ws.Connections, conn.FromNode = "ghost" ∧
        conn.FromNode ∉ keysOf ws.Nodes := by
  refine ⟨_, rfl, Connection.mk "ghost" "900001" none, ?_, rfl, ?_⟩
  · decide
  · decide

/-- C8 (amended): for every canvas whose edges reference existing
top-level nodes, whose composite-internal edges reference the composite or
its blocks, whose nodes and blocks all have schema-yielding (non-comment)
types, and whose batch-enabled and sub-workflow nodes carry no blocks,
successful compilation yields a schema in which every connection's
from_node is the key of some schema node and every to_node is END or the
key of some schema node.  (Without these assumptions the invariant fails:
pruning only checks edge targets, so an edge from a non-existent source
survives into the connection list.) -/
theorem C8_amended_connection_endpoints (c : Canvas) (ws : WorkflowSchema)
    (hwf : WellFormedCanvas c) (h : CanvasToWorkflowSchema c = .ok ws) :
    ∀ conn ∈ ws.Connections, ConnOK (keysOf ws.Nodes) conn := by
  obtain ⟨hedges, hnodes⟩ := hwf
  simp only [CanvasToWorkflowSchema] at h
  cases hpr : PruneIsolatedNodes c.Nodes c.Edges none with
  | error p =>
    simp only [hpr] at h
    exact Except.noConfusion h
  | ok pruned =>
    simp only [hpr] at h
    have hprune : ∃ nc, prunePass1 c.Nodes [] none = .ok nc ∧
        pruneFinish nc.1 nc.2 c.Edges = .ok (pruned.1, pruned.2) := by
      simp only [PruneIsolatedNodes] at hpr
      cases hp1 : prunePass1 c.Nodes [] none with
      | error e =>
        simp only [hp1] at hpr
        exact Except.noConfusion hpr
      | ok nc =>
        simp only [hp1] at hpr
        refine ⟨nc, rfl, ?_⟩
        rw [show ((pruned.1, pruned.2) : List Node × List Edge) = pruned from rfl]
        exact hpr
    obtain ⟨nc, hp1, hpf⟩ := hprune
    obtain ⟨hsurv, hedgeok⟩ := prune_core c.Nodes [] none c.Edges nc
      pruned.1 pruned.2 []
      (fun p hp => Option.noConfusion hp)
      (by simp [keysOfAssoc])
      hp1 hpf
      (by
        intro e he
        obtain ⟨h1, h2⟩ := hedges e he
        exact ⟨Or.inr h1, Or.inr h2⟩)
    have hwfp : ∀ n' ∈ pruned.1, WFNode n' := by
      intro n' hn'
      obtain ⟨n, hn, hpn⟩ := hsurv n' hn'
      exact prunePass1Node_wf (hnodes n hn) hpn
    cases hfp : foldProcessNodes pruned.1 ⟨[], [], [], [], []⟩ with
    | error e =>
      simp only [hfp] at h
      exact Except.noConfusion h
    | ok acc =>
      simp only [hfp] at h
      obtain ⟨ns, cs, hsch, hconn, hids, hok⟩ :=
        foldProcessNodes_spec pruned.1 _ acc hwfp hfp
      have hsch' : acc.SchemaNodes = ns := by simpa using hsch
      have hconn' : acc.Connections = cs := by simpa using hconn
      cases hnp : normalizePorts
          (acc.Connections ++ pruned.2.map EdgeToConnection) acc.nodeMap with
      | error e =>
        simp only [hnp] at h
        exact Except.noConfusion h
      | ok newConnections =>
        simp only [hnp] at h
        injection h with h
        subst h
        intro conn hconn2
        have hmem : conn ∈ newConnections := hconn2
        obtain ⟨c0, hc0, hfr, hto⟩ :=
          normalizePorts_endpoints _ _ _ hnp conn hmem
        have hc0ok : ConnOK (keysOf ns) c0 := by
          rcases List.mem_append.mp hc0 with hc0 | hc0
          · refine hok c0 ?_
            rwa [hconn'] at hc0
          · obtain ⟨e, hem, hce⟩ := List.mem_map.mp hc0
            subst hce
            obtain ⟨hfrom, htoe⟩ := edgeToConnection_endpoints e
            obtain ⟨hs, ht⟩ := hedgeok e hem
            rcases hs with hs | hs
            · cases hs
            · obtain ⟨nd, hnd, hndid⟩ := List.mem_map.mp hs
              constructor
              · rw [hfrom, ← hndid]
                exact hids nd hnd
              · rcases htoe with h1 | h1
                · exact Or.inl h1
                · rcases ht with ht | ht
                  · cases ht
                  · obtain ⟨nd2, hnd2, hnd2id⟩ := List.mem_map.mp ht
                    refine Or.inr ?_
                    rw [h1, ← hnd2id]
                    exact hids nd2 hnd2
        obtain ⟨ho1, ho2⟩ := hc0ok
        constructor
        · show conn.FromNode ∈ keysOf acc.SchemaNodes
          rw [hsch', hfr]
          exact ho1
        · show conn.ToNode = END ∨ conn.ToNode ∈ keysOf acc.SchemaNodes
          rw [hsch', hto]
          exact ho2

theorem C8_amended_connection_endpoints_witness :
    WellFormedCanvas simpleCanvas ∧
    ∃ ws, CanvasToWorkflowSchema simpleCanvas = .ok ws ∧
      ∀ conn ∈ ws.Connections, ConnOK (keysOf ws.Nodes) conn := by
  have hwf : WellFormedCanvas simpleCanvas := by
    constructor
    · intro e he
      have he' : e = Edge.mk EntryNodeKey ExitNodeKey "" "" := by
        simpa [simpleCanvas] using he
      subst he'
      exact ⟨by decide, by decide⟩
    · intro n hn
      have hn' : n = entryNode ∨ n = exitNode := by
        simpa [simpleCanvas] using hn
      rcases hn' with rfl | rfl
      · refine ⟨Or.inl (by decide), ?_, ?_, fun _ => rfl, fun _ => rfl⟩
        · intro e he
          simp [entryNode, Node.Edges] at he
        · intro b hb
          simp [entryNode, Node.Blocks] at hb
      · refine ⟨Or.inl (by decide), ?_, ?_, fun _ => rfl, fun _ => rfl⟩
        · intro e he
          simp [exitNode, Node.Edges] at he
        · intro b hb
          simp [exitNode, Node.Blocks] at hb
  exact ⟨hwf, _, rfl,
    C8_amended_connection_endpoints simpleCanvas _ hwf rfl⟩

theorem C3_publish_version_monotonicity_witness :
    parseVersion "v0.0.1" = .ok (0, 0, 1) ∧
    ((∃ e, publishVersionCheck (some "v0.0.1") "v0.0.1" = .error e) ↔
      ¬ ∃ V, parseVersion "v0.0.1" = .ok V ∧ versionLt (0, 0, 1) V) ∧
    publishVersionCheck none "v0.0.1" = .ok () :=
  ⟨rfl, (C3_publish_version_monotonicity "v0.0.1" "v0.0.1" (0, 0, 1) rfl).1,
    (C3_publish_version_monotonicity "v0.0.1" "v0.0.1" (0, 0, 1) rfl).2⟩

end Coze
